import Mathlib

/-!
# k9s live-view core: table reconciliation, filtering, sorting index, log buffer

A shallow embedding of
* `internal/views/subject.go`  (`buildHead`, `buildTable`, `computeDeltas`, `ensureDeletes`),
* `internal/views/table.go`    (`update`, `filtered`, `adjustSorter`, `doUpdate`),
* `internal/view/logs.go`      (`updateLogs`),
together with the properties established about them.

Conventions of the embedding.
* A Go `resource.Row` (`[]string`) is a `List String`; rows are the non-nil slices the
  callers build with slice literals and `make`.
* A Go `map[string]*RowEvent` is an association list; a well-formed map has pairwise
  distinct keys (`RowEvents.WF`).  Every key owns its own event, as in
  `clusterSubjects` / `namespacedSubjects`, which allocate one `RowEvent` per key.
* A run-time panic (index out of range) is the result `none`.
-/

namespace K9s

/-! ## Data model -/

/-- Row of display fields, Go `resource.Row`. -/
abbrev Row := List String

/-- Modelled from the spec: the Action tags of a row event (data model, "RowEvent").
`resource.New` and `resource.Unchanged` are declared in the `resource` package,
`watch.Added`, `watch.Modified` and `watch.Deleted` in the Kubernetes `watch` package;
`Unset` is the zero value of a freshly allocated event. -/
inductive Action where
  | Unset
  | New
  | Added
  | Modified
  | Deleted
  | Unchanged
  deriving DecidableEq, Repr

/-- Go `resource.RowEvent`. -/
structure RowEvent where
  Action : Action
  Fields : Row
  Deltas : Row
  deriving DecidableEq, Repr

/-- Go `resource.RowEvents`, a map from row key to row event. -/
abbrev RowEvents := List (String × RowEvent)

namespace RowEvents

/-- The keys held by the map. -/
def keys (m : RowEvents) : List String := m.map Prod.fst

/-- Well-formed map: no key occurs twice. -/
def WF (m : RowEvents) : Prop := m.keys.Nodup

instance (m : RowEvents) : Decidable m.WF := inferInstanceAs (Decidable m.keys.Nodup)

/-- Map lookup `m[k]` with the comma-ok flag folded into the option. -/
def get? : RowEvents → String → Option RowEvent
  | [], _ => none
  | (k', e) :: rest, k => if k' = k then some e else get? rest k

/-- Map store `m[k] = e`. -/
def put : RowEvents → String → RowEvent → RowEvents
  | [], k, e => [(k, e)]
  | (k', e') :: rest, k, e => if k' = k then (k, e) :: rest else (k', e') :: put rest k e

/-- Map removal `delete(m, k)`. -/
def del : RowEvents → String → RowEvents
  | [], _ => []
  | (k', e') :: rest, k => if k' = k then del rest k else (k', e') :: del rest k

end RowEvents

/-- Go `resource.TableData` (the fields this core uses). -/
structure TableData where
  Header : Row
  Rows : RowEvents
  Namespace : String
  NumCols : List (String × Bool)
  deriving DecidableEq, Repr

/-- Go `cachedEventer`: a header and the cache behind `getCache` / `setCache`. -/
structure CachedEventer where
  header : Row
  cache : RowEvents
  deriving DecidableEq, Repr

/-- Namespace marker of the RBAC views, Go `rbacNS`. -/
def rbacNS : String := "*"

/-! ## `subject.go`: the differ and the cache -/

/-- Go `make(resource.Row, n)`: `n` empty strings. -/
def makeRow (n : Nat) : Row := List.replicate n ""

/-- Go `buildHead`. -/
def buildHead (c : CachedEventer) (_evts : RowEvents) : TableData :=
  { Header := c.header, Rows := [], Namespace := rbacNS, NumCols := [] }

/-- The loop of `computeDeltas`, `for col, field := range oldr`, from column `col` on:
`newr[col]` and `ev.Deltas[col]` are bounds-checked, a failed check is `none`. -/
def deltaLoop (newr : Row) : Nat → List String → Row → Option Row
  | _, [], deltas => some deltas
  | col, field :: rest, deltas =>
    match newr[col]? with
    | none => none
    | some nf =>
      if field ≠ nf then
        if col < deltas.length then deltaLoop newr (col + 1) rest (deltas.set col field)
        else none
      else deltaLoop newr (col + 1) rest deltas

/-- Go `computeDeltas`. -/
def computeDeltas (ev : RowEvent) (oldr newr : Row) : Option RowEvent :=
  if oldr = newr then
    some { ev with Action := Action.Unchanged }
  else
    (deltaLoop newr 0 oldr ev.Deltas).map
      (fun d => { ev with Action := Action.Modified, Deltas := d })

/-- One iteration of the loop of `buildTable` on the event `ev` stored under `k`:
the annotated event. -/
def annotate (header : Row) (cache : RowEvents) (k : String) (ev : RowEvent) :
    Option RowEvent :=
  let ev1 : RowEvent := { ev with Action := Action.New, Deltas := makeRow header.length }
  if cache.length = 0 then some ev1
  else
    match cache.get? k with
    | none => some { ev1 with Action := Action.Added }
    | some old => computeDeltas ev1 old.Fields ev1.Fields

/-- The loop of `buildTable`, `for k, ev := range evts`, over the entries still to
visit.  `rows` is `newData.Rows`; `evts` is the incoming map, whose events are
annotated in place since both maps hold the same pointers. -/
def buildLoop (header : Row) (cache : RowEvents) :
    List (String × RowEvent) → RowEvents → RowEvents → Option (RowEvents × RowEvents)
  | [], rows, evts => some (rows, evts)
  | (k, ev) :: rest, rows, evts =>
    match annotate header cache k ev with
    | none => none
    | some ev' => buildLoop header cache rest (rows.put k ev') (evts.put k ev')

/-- Go `ensureDeletes`, over the keys still to visit. -/
def ensureDeletesLoop (table : TableData) : List String → RowEvents → RowEvents
  | [], evts => evts
  | k :: rest, evts =>
    match table.Rows.get? k with
    | none => ensureDeletesLoop table rest (evts.del k)
    | some _ => ensureDeletesLoop table rest evts

/-- Go `ensureDeletes`. -/
def ensureDeletes (table : TableData) (evts : RowEvents) : RowEvents :=
  ensureDeletesLoop table evts.keys evts

/-- Go `buildTable`: the returned table and the eventer after `setCache`. -/
def buildTable (c : CachedEventer) (evts : RowEvents) : Option (TableData × CachedEventer) :=
  let newData := buildHead c evts
  match buildLoop c.header c.cache evts newData.Rows evts with
  | none => none
  | some (rows, evts') =>
    let newData' : TableData := { newData with Rows := rows }
    some (newData', { c with cache := ensureDeletes newData' evts' })

/-- The list `l` holds, key by key and in the same order, the annotated events of `todo`. -/
def AnnotatedBy (header : Row) (cache : RowEvents) (todo l : RowEvents) : Prop :=
  List.Forall₂ (fun a b => b.1 = a.1 ∧ annotate header cache a.1 a.2 = some b.2) todo l

end K9s

/-! ## `logs.go`: the log buffer -/

namespace K9s

/-- Go `logBuffSize`. -/
def logBuffSize : Nat := 100

/-- Go `FlushTimeout`, in milliseconds. -/
def FlushTimeout : Nat := 200

/-- What one `select` of `updateLogs` receives. -/
inductive LogEvent where
  /-- A line from the channel: `line, ok := <-c` with `ok`. -/
  | line (s : String)
  /-- The channel is closed: `<-c` with `!ok`. -/
  | closed
  /-- The timer of this iteration fired: `<-time.After(FlushTimeout)`. -/
  | timer
  /-- The context is cancelled: `<-ctx.Done()`. -/
  | cancel
  deriving DecidableEq, Repr

/-- One call `l.Flush(index, buff)`: the line count and the buffer as it is at the call. -/
structure FlushCall where
  lineCount : Nat
  buff : List String
  deriving DecidableEq, Repr

/-- Modelled from the spec: the lines a flush hands to the renderer, `Log.Flush` being
declared outside the files at hand: exactly `lineCount` lines of the buffer, indices
`[0, lineCount)`. -/
def FlushCall.lines (f : FlushCall) : List String := f.buff.take f.lineCount

/-- Everything delivered by a sequence of flushes, in order. -/
def delivered (fs : List FlushCall) : List String := (fs.map FlushCall.lines).flatten

/-- State of the goroutine `updateLogs`: its locals `buff` and `index`, the calls to
`l.Flush` made so far, and whether the loop is still running (it has not returned). -/
structure LogLoop where
  buff : List String
  index : Nat
  flushes : List FlushCall
  running : Bool
  deriving DecidableEq, Repr

/-- Go `buff[i] = line`, bounds-checked. -/
def store (buff : List String) (i : Nat) (line : String) : Option (List String) :=
  if i < buff.length then some (buff.set i line) else none

/-- State on entry to the loop: `buff, index := make([]string, buffSize), 0`. -/
def LogLoop.init (buffSize : Nat) : LogLoop :=
  { buff := List.replicate buffSize "", index := 0, flushes := [], running := true }

/-- One iteration of the loop of `updateLogs` on the event its `select` receives;
`none` is an index out of range. -/
def LogLoop.step (buffSize : Nat) (s : LogLoop) : LogEvent → Option LogLoop
  | LogEvent.line l =>
    if s.index < buffSize then
      (store s.buff s.index l).map (fun b => { s with buff := b, index := s.index + 1 })
    else
      (store s.buff 0 l).map (fun b =>
        { s with flushes := s.flushes ++ [⟨s.index, s.buff⟩], buff := b, index := 0 + 1 })
  | LogEvent.closed =>
    some { s with flushes := s.flushes ++ [⟨s.index, s.buff⟩], running := false }
  | LogEvent.timer =>
    some { s with flushes := s.flushes ++ [⟨s.index, s.buff⟩], index := 0 }
  | LogEvent.cancel => some { s with running := false }

/-- The loop on a sequence of events; once it has returned nothing more is handled. -/
def LogLoop.run (buffSize : Nat) : LogLoop → List LogEvent → Option LogLoop
  | s, [] => some s
  | s, e :: es =>
    if s.running then
      match s.step buffSize e with
      | none => none
      | some s' => LogLoop.run buffSize s' es
    else some s

/-- Go `updateLogs` on the events its `select` receives, in order. -/
def updateLogs (buffSize : Nat) (events : List LogEvent) : Option LogLoop :=
  (LogLoop.init buffSize).run buffSize events

/-- The lines among a sequence of events, in arrival order. -/
def receivedLines : List LogEvent → List String
  | [] => []
  | LogEvent.line l :: es => l :: receivedLines es
  | _ :: es => receivedLines es

/-- The event is a line or a timer fire. -/
def LogEvent.isLineOrTimer : LogEvent → Bool
  | LogEvent.line _ => true
  | LogEvent.timer => true
  | _ => false

end K9s

/-! ## `updateLogs` in time

The `select` of `updateLogs` creates its timer with `time.After(FlushTimeout)` each time
it is entered, that is at the start of every iteration of the loop.  Handling an event
takes no time; times are in milliseconds since the loop was entered. -/

namespace K9s

/-- What one `select` of a running `updateLogs` receives, with its timing. -/
inductive TimedEvent where
  /-- A line is received `delay` milliseconds after the `select` was entered. -/
  | line (delay : Nat) (s : String)
  /-- Nothing is received for `FlushTimeout`: the timer of this iteration fires. -/
  | timer
  deriving DecidableEq, Repr

/-- A line can only win the `select` while the timer of the iteration has not fired. -/
def TimedEvent.valid : TimedEvent → Bool
  | TimedEvent.line delay _ => decide (delay ≤ FlushTimeout)
  | TimedEvent.timer => true

/-- The loop of `updateLogs` together with a clock and a record of arrivals:
`now` is the time the current `select` was entered, `pending` the arrival times of the
lines in `buff[0..index)`, `flushedAt` for each flush its time and the arrival times of
the lines it carries. -/
structure TimedLoop where
  loop : LogLoop
  now : Nat
  pending : List Nat
  flushedAt : List (Nat × List Nat)
  deriving DecidableEq, Repr

/-- State on entry to the loop, at time 0. -/
def TimedLoop.init (buffSize : Nat) : TimedLoop :=
  { loop := LogLoop.init buffSize, now := 0, pending := [], flushedAt := [] }

/-- Book-keeping after an iteration handled at time `time` left the loop in `lp`:
if the iteration flushed, the pending lines are recorded as flushed at `time`;
a line that arrived is pending from `time` on. -/
def TimedLoop.advance (t : TimedLoop) (time : Nat) (arrival : Option Nat) (lp : LogLoop) :
    TimedLoop :=
  if t.loop.flushes.length < lp.flushes.length then
    { loop := lp, now := time, pending := arrival.toList,
      flushedAt := t.flushedAt ++ [(time, t.pending)] }
  else
    { loop := lp, now := time, pending := t.pending ++ arrival.toList,
      flushedAt := t.flushedAt }

/-- One iteration of the loop of `updateLogs`, in time. -/
def TimedLoop.step (buffSize : Nat) (t : TimedLoop) : TimedEvent → Option TimedLoop
  | TimedEvent.line delay l =>
    (t.loop.step buffSize (LogEvent.line l)).map
      (t.advance (t.now + delay) (some (t.now + delay)))
  | TimedEvent.timer =>
    (t.loop.step buffSize LogEvent.timer).map (t.advance (t.now + FlushTimeout) none)

/-- The loop of `updateLogs` on a sequence of timed events. -/
def TimedLoop.run (buffSize : Nat) : TimedLoop → List TimedEvent → Option TimedLoop
  | t, [] => some t
  | t, e :: es =>
    match t.step buffSize e with
    | none => none
    | some t' => TimedLoop.run buffSize t' es

end K9s

namespace K9s

/-- Invariant of the timed loop: the shape of the buffer, the record of arrivals agreeing
with the cursor and with the flush calls, a pending line being at most one `FlushTimeout`
per pending line old, and every flush coming within `FlushTimeout` of the newest line it
carries and within `buffSize * FlushTimeout` of every line it carries. -/
def TimedLoop.Inv (buffSize : Nat) (t : TimedLoop) : Prop :=
  t.loop.buff.length = buffSize ∧ t.loop.index ≤ buffSize ∧
  t.pending.length = t.loop.index ∧
  (∀ a ∈ t.pending, a ≤ t.now ∧ t.now + FlushTimeout ≤ a + t.pending.length * FlushTimeout) ∧
  (∀ x, t.pending.getLast? = some x → x = t.now) ∧
  t.flushedAt.map (fun f => f.2.length) = t.loop.flushes.map FlushCall.lineCount ∧
  (∀ f ∈ t.flushedAt,
    (∀ a ∈ f.2, a ≤ f.1 ∧ f.1 ≤ a + buffSize * FlushTimeout) ∧
    (∀ x, f.2.getLast? = some x → f.1 ≤ x + FlushTimeout))

end K9s

/-! ## `table.go`: the filter and the sort column -/

namespace K9s

/-- Go `sortColumn`, as built by `sortColumn{0, 0, true}`. -/
structure SortColumn where
  index : Int
  colCount : Int
  asc : Bool
  deriving DecidableEq, Repr

/-- Go `int` arithmetic on a 64-bit platform: the result modulo `2 ^ 64`, between
`-2 ^ 63` and `2 ^ 63 - 1`. -/
def wrapInt (x : Int) : Int := (x + 2 ^ 63) % 2 ^ 64 - 2 ^ 63

/-- Modelled from the spec: the filter buffer `cmdBuff`, declared outside the files at
hand: the text typed so far and whether filter mode is active. -/
structure CmdBuff where
  buff : String
  active : Bool
  deriving DecidableEq, Repr

/-- Modelled from the spec: `cmdBuff.empty()`, the buffer holds no character. -/
def CmdBuff.empty (b : CmdBuff) : Bool := b.buff.length == 0

/-- Modelled from the spec: `cmdBuff.String()`, the text of the buffer. -/
def CmdBuff.string (b : CmdBuff) : String := b.buff

/-- Modelled from the spec: `cmdBuff.clear()`, the filter text is cleared. -/
def CmdBuff.clear (b : CmdBuff) : CmdBuff := { b with buff := "" }

/-- What `table.go` takes from outside: Go's `regexp` package (`Compile`, with `none`
for an error, and `MatchString`) and the predicate `isLabelSelector`. -/
structure TableEnv where
  Regexp : Type
  compile : String → Option Regexp
  matchString : Regexp → String → Bool
  isLabelSelector : String → Bool

/-- Go `tableView`: the state `update`, `filtered` and `adjustSorter` read and write;
`flashErrs` are the errors handed to `app.flash().err`. -/
structure TableView where
  data : TableData
  currentNS : String
  cmdBuff : CmdBuff
  sortCol : SortColumn
  flashErrs : List String
  deriving DecidableEq, Repr

/-- Go `tableView.adjustSorter`, on the sort column. -/
def adjustSorter (s : SortColumn) (data : TableData) : SortColumn :=
  let index :=
    if s.colCount = 0 then s.index
    else if (data.Header.length : Int) > s.colCount then wrapInt (s.index + 1)
    else if (data.Header.length : Int) < s.colCount then wrapInt (s.index - 1)
    else s.index
  { s with colCount := (data.Header.length : Int), index := if index < 0 then 0 else index }

/-- Go `tableView.doUpdate`: adjusts the sorter and renders `data`; the second component
is the table handed to the rendering (header cells, `sort`). -/
def doUpdate (v : TableView) (data : TableData) : TableView × TableData :=
  ({ v with sortCol := adjustSorter v.sortCol data }, data)

/-- The loop of `tableView.filtered`, `for k, row := range v.data.Rows`. -/
def filteredLoop (env : TableEnv) (rx : env.Regexp) :
    List (String × RowEvent) → RowEvents → RowEvents
  | [], acc => acc
  | (k, row) :: rest, acc =>
    if env.matchString rx (String.intercalate " " row.Fields) then
      filteredLoop env rx rest (acc.put k row)
    else filteredLoop env rx rest acc

/-- Go `tableView.filtered`. -/
def filtered (env : TableEnv) (v : TableView) : TableView × TableData :=
  match env.compile ("(?i)" ++ v.cmdBuff.string) with
  | none =>
    ({ v with flashErrs := v.flashErrs ++ ["Invalid filter expression"],
              cmdBuff := v.cmdBuff.clear }, v.data)
  | some rx =>
    (v, { Header := v.data.Header, Rows := filteredLoop env rx v.data.Rows [],
          Namespace := v.data.Namespace, NumCols := [] })

/-- Go `tableView.update`: the view afterwards and the table handed to `doUpdate`. -/
def update (env : TableEnv) (v : TableView) (data : TableData) : TableView × TableData :=
  let v1 : TableView := { v with currentNS := data.Namespace, data := data }
  if v1.cmdBuff.empty || env.isLabelSelector v1.cmdBuff.string then
    doUpdate v1 v1.data
  else
    let r := filtered env v1
    doUpdate r.1 r.2

end K9s

/-! ## `subject.go`: the reconciliation cycle -/

namespace K9s

/-- Go `subjectHeader`. -/
def subjectHeader : Row := ["NAME", "KIND", "FIRST LOCATION"]

/-- Go `subjectView`: the embedded `tableView` and the cache. -/
structure SubjectView where
  table : TableView
  cache : RowEvents
  deriving DecidableEq, Repr

/-- The zero value `resource.TableData{}`. -/
def emptyTableData : TableData := { Header := [], Rows := [], Namespace := "", NumCols := [] }

/-- The merge loop of `subjectView.reconcile`, `for k, v := range nevts { evts[k] = v }`. -/
def mergeEvents : RowEvents → List (String × RowEvent) → RowEvents
  | evts, [] => evts
  | evts, (k, v) :: rest => mergeEvents (evts.put k v) rest

/-- Go `subjectView.reconcile`, given what `clusterSubjects` and `namespacedSubjects`
return (an error or a map): the returned table and error, and the view afterwards. -/
def SubjectView.reconcile (v : SubjectView)
    (clusterSubjects namespacedSubjects : Except String RowEvents) :
    Option ((TableData × Option String) × SubjectView) :=
  match clusterSubjects with
  | Except.error err => some ((emptyTableData, some err), v)
  | Except.ok evts =>
    match namespacedSubjects with
    | Except.error err => some ((emptyTableData, some err), v)
    | Except.ok nevts =>
      match buildTable { header := subjectHeader, cache := v.cache } (mergeEvents evts nevts) with
      | none => none
      | some (data, c) => some ((data, none), { v with cache := c.cache })

/-- Go `subjectView.refresh`: the view afterwards and the table handed on for display. -/
def SubjectView.refresh (env : TableEnv) (v : SubjectView)
    (clusterSubjects namespacedSubjects : Except String RowEvents) :
    Option (SubjectView × TableData) :=
  match v.reconcile clusterSubjects namespacedSubjects with
  | none => none
  | some ((data, _err), v') =>
    some ({ v' with table := (update env v'.table data).1 }, (update env v'.table data).2)

end K9s

/-! ## `table.go`: the key commands of the filter -/

namespace K9s

/-- Modelled from the spec: `cmdBuff.isActive()`, declared outside the files at hand. -/
def CmdBuff.isActive (b : CmdBuff) : Bool := b.active

/-- Modelled from the spec: `cmdBuff.setActive(f)`, declared outside the files at hand. -/
def CmdBuff.setActive (b : CmdBuff) (f : Bool) : CmdBuff := { b with active := f }

/-- Modelled from the spec: `cmdBuff.reset()`, declared outside the files at hand: the
filter text is cleared and filter mode is left. -/
def CmdBuff.reset (b : CmdBuff) : CmdBuff := b.clear.setActive false

/-- Go `tableView` with the callback `filterFn`: whether it is set (`filterFnSet`, false
for `nil`), the arguments it was called with, and the messages handed to
`app.flash().info`. -/
structure TableViewKeys where
  view : TableView
  filterFnSet : Bool
  filterCalls : List String
  flashInfos : List String
  deriving DecidableEq, Repr

/-- Go `tableView.refresh`. -/
def TableViewKeys.refresh (env : TableEnv) (w : TableViewKeys) : TableViewKeys :=
  { w with view := (update env w.view w.view.data).1 }

/-- Go `v.filterFn(arg)`: calling a nil function value is a run-time panic, `none`. -/
def TableViewKeys.callFilterFn (w : TableViewKeys) (arg : String) : Option TableViewKeys :=
  if w.filterFnSet then some { w with filterCalls := w.filterCalls ++ [arg] } else none

/-- Go `tableView.filterCmd`; `trimLabelSelector` is declared outside the files at hand. -/
def TableViewKeys.filterCmd (env : TableEnv) (trimLabelSelector : String → String)
    (w : TableViewKeys) : Option TableViewKeys :=
  if w.view.cmdBuff.isActive then
    let w1 : TableViewKeys :=
      { w with view := { w.view with cmdBuff := w.view.cmdBuff.setActive false } }
    let cmd := w1.view.cmdBuff.string
    if env.isLabelSelector cmd && w1.filterFnSet then
      w1.callFilterFn (trimLabelSelector cmd)
    else some (w1.refresh env)
  else some w

/-- Go `tableView.resetCmd`. -/
def TableViewKeys.resetCmd (env : TableEnv) (w : TableViewKeys) : Option TableViewKeys :=
  let w1 : TableViewKeys :=
    if !w.view.cmdBuff.empty then { w with flashInfos := w.flashInfos ++ ["Clearing filter..."] }
    else w
  let called : Option TableViewKeys :=
    if env.isLabelSelector w1.view.cmdBuff.string then w1.callFilterFn "" else some w1
  called.map (fun w2 =>
    TableViewKeys.refresh env { w2 with view := { w2.view with cmdBuff := w2.view.cmdBuff.reset } })

end K9s

/-! ## `crd.go`: field extraction from an unstructured object -/

namespace K9s

/-- A Go `interface{}` value inside an unstructured object: `nil`, a string, a
`[]interface{}`, a `map[string]interface{}`, or a value of another type. -/
inductive Value where
  | null
  | str (s : String)
  | list (l : List Value)
  | map (m : List (String × Value))
  | other

/-- Go `map[string]interface{}`, as in `unstructured.Unstructured.Object`. -/
abbrev Obj := List (String × Value)

/-- Map lookup `m[s]` with the comma-ok flag folded into the option. -/
def getField : Obj → String → Option Value
  | [], _ => none
  | (k, v) :: rest, s => if k = s then some v else getField rest s

/-- The checked assertion `m[s].(map[string]interface{})`: `none` when `ok` is false.
An absent key yields the nil interface, for which the assertion fails as well. -/
def asMap (m : Obj) (s : String) : Option Obj :=
  match getField m s with
  | some (Value.map x) => some x
  | _ => none

/-- Go `TypeMeta`, declared outside the files at hand: the fields `ExtFields` assigns. -/
structure TypeMeta where
  Name : String
  Group : String
  Version : String
  Kind : String
  Singular : String
  Plural : String
  Namespaced : Bool
  ShortNames : List String
  deriving DecidableEq, Repr

/-- Go `isNamespaced`. -/
def isNamespaced (scope : String) : Bool := decide (scope = "Namespaced")

/-- Go `mapStr`: the string, or the error. -/
def mapStr (m : Obj) (s : String) : Except String String :=
  match getField m s with
  | none => Except.error ("Unable to locate CRD field " ++ s)
  | some (Value.str v) => Except.ok v
  | some _ => Except.error ("No string type for CRD field " ++ s)

/-- The loop of `ExtFields` over `shortNames`: the strings among the entries. -/
def shortNamesOf : List Value → List String
  | [] => []
  | Value.str v :: rest => v :: shortNamesOf rest
  | _ :: rest => shortNamesOf rest

/-- Go `CustomResourceDefinition.ExtFields` on the object of `r.instance`: the `TypeMeta`
as left behind and the returned error (`none` for `nil`).  A failed `mapStr` assigns the
empty string to its field before the error is returned. -/
def ExtFields (inst : Obj) (m : TypeMeta) : TypeMeta × Option String :=
  match asMap inst "spec" with
  | none => (m, some "Unable to locate `spec field on CRD")
  | some spec =>
  match asMap inst "metadata" with
  | none => (m, some "Unable to locate CRD `metadata field")
  | some meta =>
  match mapStr meta "name" with
  | Except.error err => ({ m with Name := "" }, some err)
  | Except.ok name =>
  let m1 : TypeMeta := { m with Name := name }
  match mapStr spec "group" with
  | Except.error err => ({ m1 with Group := "" }, some err)
  | Except.ok group =>
  let m2 : TypeMeta := { m1 with Group := group }
  match mapStr spec "version" with
  | Except.error err => ({ m2 with Version := "" }, some err)
  | Except.ok version =>
  let m3 : TypeMeta := { m2 with Version := version }
  match mapStr spec "scope" with
  | Except.error err => (m3, some err)
  | Except.ok scope =>
  let m4 : TypeMeta := { m3 with Namespaced := isNamespaced scope }
  match asMap spec "names" with
  | none => (m4, some ("Unable to locate `names on CRD " ++ m4.Group ++ ":" ++ m4.Version))
  | some names =>
  match mapStr names "kind" with
  | Except.error err => ({ m4 with Kind := "" }, some err)
  | Except.ok kind =>
  let m5 : TypeMeta := { m4 with Kind := kind }
  match mapStr names "singular" with
  | Except.error err => ({ m5 with Singular := "" }, some err)
  | Except.ok singular =>
  let m6 : TypeMeta := { m5 with Singular := singular }
  match mapStr names "plural" with
  | Except.error err => ({ m6 with Plural := "" }, some err)
  | Except.ok plural =>
  let m7 : TypeMeta := { m6 with Plural := plural }
  match getField names "shortNames" with
  | some (Value.list aa) => ({ m7 with ShortNames := m7.ShortNames ++ shortNamesOf aa }, none)
  | _ => ({ m7 with ShortNames := [] }, none)

/-- The unchecked assertion `m[s].(map[string]interface{})`: `none` is the run-time panic
of a failed type assertion. -/
def mustMap (m : Obj) (s : String) : Option Obj := asMap m s

/-- The unchecked assertion `m[s].(string)`: `none` is the run-time panic of a failed type
assertion. -/
def mustStr (m : Obj) (s : String) : Option String :=
  match getField m s with
  | some (Value.str v) => some v
  | _ => none

/-- Go `CustomResourceDefinition.New` on an unstructured object: the path `c.path` of the
new instance. -/
def CustomResourceDefinition.New (inst : Obj) : Option String :=
  match mustMap inst "metadata" with
  | none => none
  | some meta => mustStr meta "name"

/-- Go `CustomResourceDefinition.Fields` on the object of `r.instance`; `age` stands for
`toAge` of the parsed time stamp (the zero time when `time.Parse` fails), both being
declared outside the files at hand. -/
def CustomResourceDefinition.Fields (age : String → String) (inst : Obj) : Option Row :=
  match mustMap inst "metadata" with
  | none => none
  | some meta =>
    match mustStr meta "creationTimestamp" with
    | none => none
    | some ts =>
      match mustStr meta "name" with
      | none => none
      | some name => some [name, age ts]

end K9s

/-! ## `logs.go`: stopping a log session -/

namespace K9s

/-- Go `Logs`: the cancel function (`none` for `nil`, otherwise a name for the function),
and the cancel functions invoked so far, in order. -/
structure Logs where
  cancelFunc : Option Nat
  invoked : List Nat
  deriving DecidableEq, Repr

/-- Go `Logs.stop`. -/
def Logs.stop (l : Logs) : Logs :=
  match l.cancelFunc with
  | none => l
  | some f => { cancelFunc := none, invoked := l.invoked ++ [f] }

/-- A number of consecutive calls of `Logs.stop`. -/
def Logs.stops : Nat → Logs → Logs
  | 0, l => l
  | n + 1, l => Logs.stops n l.stop

end K9s

/-! ## Lemmas on maps -/

namespace K9s
namespace RowEvents

theorem get?_isSome_iff (m : RowEvents) (k : String) :
    (m.get? k).isSome ↔ k ∈ m.keys := by
  induction m with
  | nil => simp [get?, keys]
  | cons p rest ih =>
    obtain ⟨k', e⟩ := p
    by_cases h : k' = k
    · simp [get?, keys, h]
    · have h' : ¬ k = k' := fun h2 => h h2.symm
      simpa [get?, keys, h, h'] using ih

theorem get?_eq_none_iff (m : RowEvents) (k : String) :
    m.get? k = none ↔ k ∉ m.keys := by
  rw [← get?_isSome_iff]
  cases m.get? k <;> simp

theorem mem_of_get? (m : RowEvents) (k : String) (e : RowEvent) (h : m.get? k = some e) :
    (k, e) ∈ m := by
  induction m with
  | nil => simp [get?] at h
  | cons p rest ih =>
    obtain ⟨k', e'⟩ := p
    by_cases hk : k' = k
    · simp [get?, hk] at h
      simp [hk, h]
    · simp [get?, hk] at h
      exact List.mem_cons_of_mem _ (ih h)

theorem get?_of_mem (m : RowEvents) (hwf : m.WF) (k : String) (e : RowEvent)
    (h : (k, e) ∈ m) : m.get? k = some e := by
  induction m with
  | nil => simp at h
  | cons p rest ih =>
    obtain ⟨k', e'⟩ := p
    have hnd : k' ∉ keys rest ∧ (keys rest).Nodup := by
      simpa [WF, keys] using hwf
    rcases List.mem_cons.mp h with heq | hmem
    · cases heq
      simp [get?]
    · have hk : k ∈ keys rest := List.mem_map_of_mem Prod.fst hmem
      have hne : ¬ k' = k := fun h2 => hnd.1 (h2 ▸ hk)
      simpa [get?, hne] using ih hnd.2 hmem

theorem put_of_not_mem (m : RowEvents) (k : String) (e : RowEvent) (h : k ∉ m.keys) :
    m.put k e = m ++ [(k, e)] := by
  induction m with
  | nil => rfl
  | cons p rest ih =>
    obtain ⟨k', e'⟩ := p
    have h1 : ¬ k' = k := fun h2 => h (by simp [keys, h2])
    have h2 : k ∉ keys rest := fun h3 => h (by
      simp only [keys, List.map_cons, List.mem_cons]
      exact Or.inr h3)
    simp [put, h1, ih h2]

theorem put_at (pre rest : RowEvents) (k : String) (e0 e : RowEvent) (h : k ∉ pre.keys) :
    put (pre ++ (k, e0) :: rest) k e = pre ++ (k, e) :: rest := by
  induction pre with
  | nil => simp [put]
  | cons p pre ih =>
    obtain ⟨k', e'⟩ := p
    have h1 : ¬ k' = k := fun h2 => h (by simp [keys, h2])
    have h2 : k ∉ keys pre := fun h3 => h (by
      simp only [keys, List.map_cons, List.mem_cons]
      exact Or.inr h3)
    simp [put, h1, ih h2]

end RowEvents
end K9s

/-! ## Lemmas on `buildTable` -/

namespace K9s
open RowEvents

theorem AnnotatedBy.keys_eq {header : Row} {cache todo l : RowEvents}
    (h : AnnotatedBy header cache todo l) : l.keys = todo.keys := by
  unfold AnnotatedBy at h
  induction h with
  | nil => rfl
  | cons hab _ ih =>
    simp only [keys, List.map_cons] at ih ⊢
    rw [hab.1, ih]

theorem AnnotatedBy.get?_fwd {header : Row} {cache todo l : RowEvents}
    (h : AnnotatedBy header cache todo l) (k : String) (new : RowEvent)
    (hk : todo.get? k = some new) :
    ∃ ev, l.get? k = some ev ∧ annotate header cache k new = some ev := by
  unfold AnnotatedBy at h
  induction h with
  | nil => simp [get?] at hk
  | @cons a b as bs hab _ ih =>
    obtain ⟨ka, ea⟩ := a
    obtain ⟨kb, eb⟩ := b
    obtain ⟨h1, h2⟩ := hab
    simp only at h1 h2
    subst h1
    by_cases hkk : kb = k
    · subst hkk
      simp only [get?, if_true, Option.some.injEq] at hk ⊢
      subst hk
      exact ⟨eb, rfl, h2⟩
    · simp only [get?, hkk, if_false] at hk ⊢
      exact ih hk

theorem AnnotatedBy.get?_bwd {header : Row} {cache todo l : RowEvents}
    (h : AnnotatedBy header cache todo l) (k : String) (ev : RowEvent)
    (hk : l.get? k = some ev) :
    ∃ new, todo.get? k = some new ∧ annotate header cache k new = some ev := by
  unfold AnnotatedBy at h
  induction h with
  | nil => simp [get?] at hk
  | @cons a b as bs hab _ ih =>
    obtain ⟨ka, ea⟩ := a
    obtain ⟨kb, eb⟩ := b
    obtain ⟨h1, h2⟩ := hab
    simp only at h1 h2
    subst h1
    by_cases hkk : kb = k
    · subst hkk
      simp only [get?, if_true, Option.some.injEq] at hk ⊢
      subst hk
      exact ⟨ea, rfl, h2⟩
    · simp only [get?, hkk, if_false] at hk ⊢
      exact ih hk

theorem buildLoop_some (header : Row) (cache : RowEvents) :
    ∀ (todo rows pre R E : RowEvents),
      buildLoop header cache todo rows (pre ++ todo) = some (R, E) →
      todo.keys.Nodup →
      (∀ k ∈ todo.keys, k ∉ rows.keys) →
      (∀ k ∈ todo.keys, k ∉ pre.keys) →
      ∃ l, AnnotatedBy header cache todo l ∧ R = rows ++ l ∧ E = pre ++ l := by
  intro todo
  induction todo with
  | nil =>
    intro rows pre R E h _ _ _
    simp only [buildLoop, List.append_nil, Option.some.injEq, Prod.mk.injEq] at h
    exact ⟨[], List.Forall₂.nil, by simp [h.1], by simp [h.2]⟩
  | cons p rest ih =>
    intro rows pre R E h hnd hrows hpre
    obtain ⟨k, ev⟩ := p
    have hnd' : k ∉ keys rest ∧ (keys rest).Nodup := by simpa [keys] using hnd
    have hkr : k ∉ rows.keys := hrows k (by simp [keys])
    have hkp : k ∉ pre.keys := hpre k (by simp [keys])
    cases ha : annotate header cache k ev with
    | none => simp [buildLoop, ha] at h
    | some ev' =>
      simp only [buildLoop, ha] at h
      rw [put_of_not_mem rows k ev' hkr, put_at pre rest k ev ev' hkp] at h
      have h' : buildLoop header cache rest (rows ++ [(k, ev')]) ((pre ++ [(k, ev')]) ++ rest)
          = some (R, E) := by simpa using h
      have hne : ∀ k' ∈ keys rest, k' ≠ k := fun k' hk' he => hnd'.1 (he ▸ hk')
      have hsub : ∀ k' ∈ keys rest, k' ∈ keys ((k, ev) :: rest) := fun k' hk' => by
        simp only [keys, List.map_cons, List.mem_cons]
        exact Or.inr hk'
      have hext : ∀ (m : RowEvents) (k' : String), k' ∉ keys m → k' ≠ k →
          k' ∉ keys (m ++ [(k, ev')]) := fun m k' h1 h2 => by
        simp only [keys, List.map_append, List.map_cons, List.map_nil, List.mem_append,
          List.mem_singleton, not_or]
        exact ⟨h1, h2⟩
      obtain ⟨l, hl, hR, hE⟩ := ih _ _ R E h' hnd'.2
        (fun k' hk' => hext rows k' (hrows k' (hsub k' hk')) (hne k' hk'))
        (fun k' hk' => hext pre k' (hpre k' (hsub k' hk')) (hne k' hk'))
      refine ⟨(k, ev') :: l, List.Forall₂.cons ⟨rfl, ha⟩ hl, ?_, ?_⟩
      · simp [hR]
      · simp [hE]

theorem buildLoop_total (header : Row) (cache : RowEvents) :
    ∀ (todo rows evts : RowEvents),
      (∀ p ∈ todo, (annotate header cache p.1 p.2).isSome) →
      ∃ r, buildLoop header cache todo rows evts = some r := by
  intro todo
  induction todo with
  | nil => intro rows evts _; exact ⟨_, rfl⟩
  | cons p rest ih =>
    intro rows evts h
    obtain ⟨k, ev⟩ := p
    have h0 := h (k, ev) (by simp)
    obtain ⟨ev', hev'⟩ := Option.isSome_iff_exists.mp h0
    simp only at hev'
    simp only [buildLoop, hev']
    exact ih _ _ (fun p hp => h p (List.mem_cons_of_mem _ hp))

theorem ensureDeletesLoop_id (table : TableData) :
    ∀ (ks : List String) (evts : RowEvents),
      (∀ k ∈ ks, k ∈ table.Rows.keys) → ensureDeletesLoop table ks evts = evts := by
  intro ks
  induction ks with
  | nil => intro evts _; rfl
  | cons k rest ih =>
    intro evts h
    have hk := (get?_isSome_iff table.Rows k).mpr (h k (by simp))
    obtain ⟨e, he⟩ := Option.isSome_iff_exists.mp hk
    simp only [ensureDeletesLoop, he]
    exact ih evts (fun k' hk' => h k' (List.mem_cons_of_mem _ hk'))

/-- Shape of a completed `buildTable`: the table and the cache hold the same map, the
incoming events annotated key by key. -/
theorem buildTable_some (c : CachedEventer) (evts : RowEvents) (hwf : evts.WF)
    (td : TableData) (c' : CachedEventer) (h : buildTable c evts = some (td, c')) :
    td.Header = c.header ∧ td.Namespace = rbacNS ∧ c'.header = c.header ∧
      c'.cache = td.Rows ∧ AnnotatedBy c.header c.cache evts td.Rows := by
  unfold buildTable at h
  simp only [buildHead] at h
  cases hb : buildLoop c.header c.cache evts [] evts with
  | none => simp [hb] at h
  | some r =>
    obtain ⟨R, E⟩ := r
    simp only [hb, Option.some.injEq, Prod.mk.injEq] at h
    obtain ⟨l, hl, hR, hE⟩ := buildLoop_some c.header c.cache evts [] [] R E
      (by simpa using hb) hwf (by simp [keys]) (by simp [keys])
    simp only [List.nil_append] at hR hE
    subst hR hE
    obtain ⟨h1, h2⟩ := h
    subst h1 h2
    refine ⟨rfl, rfl, rfl, ?_, hl⟩
    simp only [ensureDeletes]
    exact ensureDeletesLoop_id _ _ _ (fun k hk => hk)

theorem buildTable_total (c : CachedEventer) (evts : RowEvents)
    (h : ∀ p ∈ evts, (annotate c.header c.cache p.1 p.2).isSome) :
    ∃ r, buildTable c evts = some r := by
  obtain ⟨r, hr⟩ := buildLoop_total c.header c.cache evts [] evts h
  obtain ⟨R, E⟩ := r
  refine ⟨(⟨c.header, R, rbacNS, []⟩,
    { c with cache := ensureDeletes ⟨c.header, R, rbacNS, []⟩ E }), ?_⟩
  simp [buildTable, buildHead, hr]

end K9s

/-! ## Lemmas on `computeDeltas` -/

namespace K9s
open RowEvents

theorem deltaLoop_spec (newr : Row) :
    ∀ (rest : List String) (col : Nat) (deltas d : Row),
      deltaLoop newr col rest deltas = some d →
      d.length = deltas.length ∧
      (∀ i, i < col → d[i]? = deltas[i]?) ∧
      (∀ i, col + rest.length ≤ i → d[i]? = deltas[i]?) ∧
      (∀ j, j < rest.length →
        d[col + j]? = if rest[j]? = newr[col + j]? then deltas[col + j]? else rest[j]?) := by
  intro rest
  induction rest with
  | nil =>
    intro col deltas d h
    simp only [deltaLoop, Option.some.injEq] at h
    subst h
    exact ⟨rfl, fun _ _ => rfl, fun _ _ => rfl, fun j hj => by simp at hj⟩
  | cons field rest ih =>
    intro col deltas d h
    cases hn : newr[col]? with
    | none => simp [deltaLoop, hn] at h
    | some nf =>
      simp only [deltaLoop, hn] at h
      by_cases hf : field = nf
      · subst hf
        simp only [ne_eq, not_true_eq_false, if_false] at h
        obtain ⟨h1, h2, h3, h4⟩ := ih (col + 1) deltas d h
        refine ⟨h1, fun i hi => h2 i (by omega), fun i hi => h3 i (by
          simp only [List.length_cons] at hi; omega), ?_⟩
        intro j hj
        cases j with
        | zero =>
          simp only [Nat.add_zero, List.getElem?_cons_zero, hn, if_true]
          exact h2 col (by omega)
        | succ j =>
          have hj' : j < rest.length := by simpa using hj
          have := h4 j hj'
          rw [show col + 1 + j = col + (j + 1) by omega] at this
          simpa using this
      · simp only [ne_eq, hf, not_false_eq_true, if_true] at h
        by_cases hc : col < deltas.length
        · simp only [hc, if_true] at h
          obtain ⟨h1, h2, h3, h4⟩ := ih (col + 1) (deltas.set col field) d h
          refine ⟨by simpa using h1, ?_, ?_, ?_⟩
          · intro i hi
            rw [h2 i (by omega), List.getElem?_set_ne (by omega)]
          · intro i hi
            simp only [List.length_cons] at hi
            rw [h3 i (by omega), List.getElem?_set_ne (by omega)]
          · intro j hj
            cases j with
            | zero =>
              have hne : ¬ (some field = some nf) := fun he => hf (Option.some.inj he)
              simp only [Nat.add_zero, List.getElem?_cons_zero, hn, hne, if_false]
              rw [h2 col (by omega), List.getElem?_set_self hc]
            | succ j =>
              have hj' : j < rest.length := by simpa using hj
              have := h4 j hj'
              rw [show col + 1 + j = col + (j + 1) by omega,
                List.getElem?_set_ne (by omega)] at this
              simpa using this
        · simp [hc] at h

theorem deltaLoop_total (newr : Row) :
    ∀ (rest : List String) (col : Nat) (deltas : Row),
      col + rest.length ≤ newr.length → col + rest.length ≤ deltas.length →
      ∃ d, deltaLoop newr col rest deltas = some d := by
  intro rest
  induction rest with
  | nil => intro col deltas _ _; exact ⟨deltas, rfl⟩
  | cons field rest ih =>
    intro col deltas h1 h2
    simp only [List.length_cons] at h1 h2
    have hc : col < newr.length := by omega
    have hd : col < deltas.length := by omega
    simp only [deltaLoop, List.getElem?_eq_getElem hc]
    by_cases hf : field = newr[col]
    · simp only [ne_eq, hf, not_true_eq_false, if_false]
      exact ih (col + 1) deltas (by omega) (by omega)
    · simp only [ne_eq, hf, not_false_eq_true, if_true, hd]
      exact ih (col + 1) (deltas.set col field) (by omega) (by simp; omega)

/-- The tag `annotate` gives to an event, when it completes. -/
theorem annotate_action (header : Row) (cache : RowEvents) (k : String) (ev ev' : RowEvent)
    (h : annotate header cache k ev = some ev') :
    ev'.Fields = ev.Fields ∧ ev'.Deltas.length = header.length ∧
    ev'.Action =
      if cache.length = 0 then Action.New
      else match cache.get? k with
        | none => Action.Added
        | some old => if old.Fields = ev.Fields then Action.Unchanged else Action.Modified := by
  unfold annotate at h
  by_cases he : cache.length = 0
  · simp only [he, if_true, Option.some.injEq] at h
    subst h
    simp [he, makeRow]
  · simp only [he, if_false] at h ⊢
    cases hc : cache.get? k with
    | none =>
      simp only [hc, Option.some.injEq] at h
      subst h
      simp [makeRow]
    | some old =>
      simp only [hc, computeDeltas] at h ⊢
      by_cases hf : old.Fields = ev.Fields
      · simp only [hf, if_true, Option.some.injEq] at h
        subst h
        simp [hf, makeRow]
      · simp only [hf, if_false, Option.map_eq_some'] at h ⊢
        obtain ⟨d, hd, hev⟩ := h
        subst hev
        have := (deltaLoop_spec _ _ _ _ _ hd).1
        simp [this, makeRow]

/-- The deltas `annotate` gives to an event whose key is cached, when it completes. -/
theorem annotate_deltas (header : Row) (cache : RowEvents) (k : String)
    (ev ev' old : RowEvent) (h : annotate header cache k ev = some ev')
    (hne : cache ≠ []) (hc : cache.get? k = some old) :
    (old.Fields = ev.Fields → ev'.Deltas = makeRow header.length) ∧
    (∀ i, i < old.Fields.length → i < header.length →
      ev'.Deltas[i]? = if old.Fields[i]? = ev.Fields[i]? then some "" else old.Fields[i]?) := by
  have he : ¬ cache.length = 0 := fun h0 => hne (List.length_eq_zero.mp h0)
  unfold annotate at h
  simp only [he, if_false, hc, computeDeltas] at h
  by_cases hf : old.Fields = ev.Fields
  · simp only [hf, if_true, Option.some.injEq] at h
    subst h
    refine ⟨fun _ => rfl, fun i _ hi => ?_⟩
    simp [hf, makeRow, hi]
  · simp only [hf, if_false, Option.map_eq_some'] at h
    obtain ⟨d, hd, hev⟩ := h
    subst hev
    refine ⟨fun h0 => absurd h0 hf, fun i hi1 hi2 => ?_⟩
    have := (deltaLoop_spec _ _ _ _ _ hd).2.2.2 i hi1
    simp only [Nat.zero_add] at this
    simp only [this, makeRow, List.getElem?_replicate, hi2, if_true]

theorem annotate_total (header : Row) (cache : RowEvents) (k : String) (ev : RowEvent)
    (h : ∀ old, cache.get? k = some old →
      old.Fields.length ≤ ev.Fields.length ∧ old.Fields.length ≤ header.length) :
    (annotate header cache k ev).isSome := by
  unfold annotate
  by_cases he : cache.length = 0
  · simp [he]
  · simp only [he, if_false]
    cases hc : cache.get? k with
    | none => simp
    | some old =>
      obtain ⟨h1, h2⟩ := h old hc
      simp only [computeDeltas]
      by_cases hf : old.Fields = ev.Fields
      · simp [hf]
      · obtain ⟨d, hd⟩ := deltaLoop_total ev.Fields old.Fields 0 (makeRow header.length)
          (by simpa using h1) (by simpa [makeRow] using h2)
        simp [hf, hd]

end K9s

/-! ## `buildTable`: tags, deltas, first cycle, eviction -/

namespace K9s
open RowEvents

theorem annotate_unchanged (header : Row) (cache : RowEvents) (k : String) (ev ev' : RowEvent)
    (h : annotate header cache k ev = some ev') (hu : ev'.Action = Action.Unchanged) :
    ev'.Deltas = makeRow header.length := by
  unfold annotate at h
  by_cases he : cache.length = 0
  · simp only [he, if_true, Option.some.injEq] at h
    subst h
    rfl
  · simp only [he, if_false] at h
    cases hc : cache.get? k with
    | none =>
      simp only [hc, Option.some.injEq] at h
      subst h
      rfl
    | some old =>
      simp only [hc, computeDeltas] at h
      by_cases hf : old.Fields = ev.Fields
      · simp only [hf, if_true, Option.some.injEq] at h
        subst h
        rfl
      · simp only [hf, if_false, Option.map_eq_some'] at h
        obtain ⟨d, _, hev⟩ := h
        subst hev
        simp at hu

/-- `buildTable` completes when no cached row is longer than the incoming row under the
same key or than the header. -/
theorem buildTable_returns (c : CachedEventer) (evts : RowEvents) (hwf : evts.WF)
    (hlen : ∀ k old new, c.cache.get? k = some old → evts.get? k = some new →
      old.Fields.length ≤ new.Fields.length ∧ old.Fields.length ≤ c.header.length) :
    ∃ r, buildTable c evts = some r := by
  apply buildTable_total
  intro p hp
  obtain ⟨k, new⟩ := p
  exact annotate_total _ _ _ _ (fun old ho => hlen k old new ho (get?_of_mem evts hwf k new hp))

theorem buildTable_row (c : CachedEventer) (evts : RowEvents) (hwf : evts.WF)
    (td : TableData) (c' : CachedEventer) (h : buildTable c evts = some (td, c'))
    (k : String) (new : RowEvent) (hk : evts.get? k = some new) :
    ∃ ev, td.Rows.get? k = some ev ∧ annotate c.header c.cache k new = some ev :=
  (buildTable_some c evts hwf td c' h).2.2.2.2.get?_fwd k new hk

theorem buildTable_row_back (c : CachedEventer) (evts : RowEvents) (hwf : evts.WF)
    (td : TableData) (c' : CachedEventer) (h : buildTable c evts = some (td, c'))
    (k : String) (ev : RowEvent) (hk : td.Rows.get? k = some ev) :
    ∃ new, evts.get? k = some new ∧ annotate c.header c.cache k new = some ev :=
  (buildTable_some c evts hwf td c' h).2.2.2.2.get?_bwd k ev hk

/-- Deltas of a row whose key is cached, when `buildTable` completes. -/
theorem buildTable_delta_at (c : CachedEventer) (evts : RowEvents) (hwf : evts.WF)
    (hne : c.cache ≠ []) (td : TableData) (c' : CachedEventer)
    (h : buildTable c evts = some (td, c')) (k : String) (old new : RowEvent)
    (ho : c.cache.get? k = some old) (hn : evts.get? k = some new)
    (hlo : old.Fields.length = c.header.length) :
    ∃ ev, td.Rows.get? k = some ev ∧ ∀ i, i < c.header.length →
      ev.Deltas[i]? = if old.Fields[i]? = new.Fields[i]? then some "" else old.Fields[i]? := by
  obtain ⟨ev, hev, han⟩ := buildTable_row c evts hwf td c' h k new hn
  exact ⟨ev, hev, fun i hi => (annotate_deltas _ _ _ _ _ _ han hne ho).2 i (by omega) hi⟩

/-- C1: with a non-empty cache, `buildTable` tags every incoming key `Added` when the key
is not cached, `Unchanged` when the cached fields equal the incoming fields, `Modified` when
they differ; it completes whenever no cached row is longer than its incoming row or the
header; and input whose fields equal the cache's is tagged `Unchanged` throughout. -/
theorem buildTable_action_tags (c : CachedEventer) (evts : RowEvents) (hwf : evts.WF)
    (hne : c.cache ≠ []) :
    ((∀ k old new, c.cache.get? k = some old → evts.get? k = some new →
        old.Fields.length ≤ new.Fields.length ∧ old.Fields.length ≤ c.header.length) →
      ∃ r, buildTable c evts = some r) ∧
    (∀ td c', buildTable c evts = some (td, c') → ∀ k new, evts.get? k = some new →
      ∃ ev, td.Rows.get? k = some ev ∧
        (c.cache.get? k = none → ev.Action = Action.Added) ∧
        (∀ old, c.cache.get? k = some old → old.Fields = new.Fields →
          ev.Action = Action.Unchanged) ∧
        (∀ old, c.cache.get? k = some old → old.Fields ≠ new.Fields →
          ev.Action = Action.Modified)) ∧
    ((∀ k new, evts.get? k = some new →
        ∃ old, c.cache.get? k = some old ∧ old.Fields = new.Fields) →
      ∃ td c', buildTable c evts = some (td, c') ∧
        ∀ k ev, td.Rows.get? k = some ev → ev.Action = Action.Unchanged) := by
  have he : ¬ c.cache.length = 0 := fun h0 => hne (List.length_eq_zero.mp h0)
  refine ⟨buildTable_returns c evts hwf, ?_, ?_⟩
  · intro td c' h k new hk
    obtain ⟨ev, hev, han⟩ := buildTable_row c evts hwf td c' h k new hk
    have hact := (annotate_action _ _ _ _ _ han).2.2
    simp only [he, if_false] at hact
    refine ⟨ev, hev, ?_, ?_, ?_⟩
    · intro hnone
      simpa [hnone] using hact
    · intro old ho hf
      simpa [ho, hf] using hact
    · intro old ho hf
      simpa [ho, hf] using hact
  · intro hsame
    obtain ⟨r, hr⟩ := buildTable_total c evts (fun p hp => by
      obtain ⟨k, new⟩ := p
      obtain ⟨old, ho, hf⟩ := hsame k new (get?_of_mem evts hwf k new hp)
      simp [annotate, he, ho, computeDeltas, hf])
    obtain ⟨td, c'⟩ := r
    refine ⟨td, c', hr, ?_⟩
    intro k ev hk
    obtain ⟨new, hnew, han⟩ := buildTable_row_back c evts hwf td c' hr k ev hk
    obtain ⟨old, ho, hf⟩ := hsame k new hnew
    have hact := (annotate_action _ _ _ _ _ han).2.2
    simpa [he, ho, hf] using hact

/-- C2: every row `buildTable` emits carries a `Deltas` row of the header's length, all
empty when the row is `Unchanged`; for a key cached in a non-empty cache whose cached and
incoming rows both have the header's length, `Deltas[i]` is the cached value where the two
rows differ and the empty string elsewhere. -/
theorem buildTable_deltas (c : CachedEventer) (evts : RowEvents) (hwf : evts.WF) :
    ((∀ k old new, c.cache.get? k = some old → evts.get? k = some new →
        old.Fields.length ≤ new.Fields.length ∧ old.Fields.length ≤ c.header.length) →
      ∃ r, buildTable c evts = some r) ∧
    (∀ td c', buildTable c evts = some (td, c') →
      (∀ k ev, td.Rows.get? k = some ev →
        ev.Deltas.length = c.header.length ∧
        (ev.Action = Action.Unchanged → ev.Deltas = List.replicate c.header.length "")) ∧
      (c.cache ≠ [] → ∀ k old new, c.cache.get? k = some old → evts.get? k = some new →
        old.Fields.length = c.header.length → new.Fields.length = c.header.length →
        ∃ ev, td.Rows.get? k = some ev ∧ ∀ i, i < c.header.length →
          ev.Deltas[i]? = if old.Fields[i]? = new.Fields[i]? then some "" else old.Fields[i]?)) := by
  refine ⟨buildTable_returns c evts hwf, ?_⟩
  intro td c' h
  refine ⟨?_, ?_⟩
  · intro k ev hk
    obtain ⟨new, _, han⟩ := buildTable_row_back c evts hwf td c' h k ev hk
    exact ⟨(annotate_action _ _ _ _ _ han).2.1, fun hu => annotate_unchanged _ _ _ _ _ han hu⟩
  · intro hne k old new ho hn hlo _
    exact buildTable_delta_at c evts hwf hne td c' h k old new ho hn hlo

end K9s

namespace K9s
open RowEvents

/-- Witness of C1: header of width 2, cache over keys a and b, fetch over a, b and c;
b changed its second column and is tagged `Modified`. -/
theorem buildTable_action_tags_witness :
    RowEvents.WF [("a", ⟨Action.Unset, ["a", "1m"], []⟩), ("b", ⟨Action.Unset, ["b", "3m"], []⟩),
        ("c", ⟨Action.Unset, ["c", "1m"], []⟩)] ∧
    ∃ ev, RowEvents.get? [("a", ⟨Action.Unchanged, ["a", "1m"], ["", ""]⟩),
        ("b", ⟨Action.Modified, ["b", "3m"], ["", "2m"]⟩),
        ("c", ⟨Action.Added, ["c", "1m"], ["", ""]⟩)] "b" = some ev ∧
      ev.Action = Action.Modified := by
  refine ⟨by decide, ?_⟩
  obtain ⟨ev, h1, _, _, h3⟩ :=
    (buildTable_action_tags
      ⟨["NAME", "AGE"], [("a", ⟨Action.New, ["a", "1m"], ["", ""]⟩),
        ("b", ⟨Action.New, ["b", "2m"], ["", ""]⟩)]⟩
      [("a", ⟨Action.Unset, ["a", "1m"], []⟩), ("b", ⟨Action.Unset, ["b", "3m"], []⟩),
        ("c", ⟨Action.Unset, ["c", "1m"], []⟩)]
      (by decide) (by decide)).2.1
      ⟨["NAME", "AGE"], [("a", ⟨Action.Unchanged, ["a", "1m"], ["", ""]⟩),
        ("b", ⟨Action.Modified, ["b", "3m"], ["", "2m"]⟩),
        ("c", ⟨Action.Added, ["c", "1m"], ["", ""]⟩)], "*", []⟩
      ⟨["NAME", "AGE"], [("a", ⟨Action.Unchanged, ["a", "1m"], ["", ""]⟩),
        ("b", ⟨Action.Modified, ["b", "3m"], ["", "2m"]⟩),
        ("c", ⟨Action.Added, ["c", "1m"], ["", ""]⟩)]⟩
      (by decide) "b" ⟨Action.Unset, ["b", "3m"], []⟩ (by decide)
  exact ⟨ev, h1, h3 ⟨Action.New, ["b", "2m"], ["", ""]⟩ (by decide) (by decide)⟩

/-- Witness of C2, the scenario of the specification: header of width 2, cache
`a ↦ [a, 1m]`, fetch `a ↦ [a, 2m]`: the row is `Modified` with deltas `["", "1m"]`. -/
theorem buildTable_deltas_witness :
    buildTable ⟨["NAME", "AGE"], [("a", ⟨Action.New, ["a", "1m"], ["", ""]⟩)]⟩
        [("a", ⟨Action.Unset, ["a", "2m"], []⟩)]
      = some (⟨["NAME", "AGE"], [("a", ⟨Action.Modified, ["a", "2m"], ["", "1m"]⟩)], "*", []⟩,
          ⟨["NAME", "AGE"], [("a", ⟨Action.Modified, ["a", "2m"], ["", "1m"]⟩)]⟩) ∧
    ∃ ev, RowEvents.get? [("a", ⟨Action.Modified, ["a", "2m"], ["", "1m"]⟩)] "a" = some ev ∧
      ev.Deltas[0]? = some "" ∧ ev.Deltas[1]? = some "1m" := by
  refine ⟨by decide, ?_⟩
  obtain ⟨ev, h1, h2⟩ :=
    ((buildTable_deltas
      ⟨["NAME", "AGE"], [("a", ⟨Action.New, ["a", "1m"], ["", ""]⟩)]⟩
      [("a", ⟨Action.Unset, ["a", "2m"], []⟩)] (by decide)).2
      ⟨["NAME", "AGE"], [("a", ⟨Action.Modified, ["a", "2m"], ["", "1m"]⟩)], "*", []⟩
      ⟨["NAME", "AGE"], [("a", ⟨Action.Modified, ["a", "2m"], ["", "1m"]⟩)]⟩
      (by decide)).2 (by decide) "a" ⟨Action.New, ["a", "1m"], ["", ""]⟩
      ⟨Action.Unset, ["a", "2m"], []⟩ (by decide) (by decide) (by decide) (by decide)
  refine ⟨ev, h1, ?_, ?_⟩
  · have := h2 0 (by decide)
    simpa using this
  · have := h2 1 (by decide)
    simpa using this

/-- Counterexample to C3 as stated: header of width 1, cache `a ↦ [""]`, fetch `a ↦ ["x"]`.
The column changed, yet the emitted delta is the empty string, the same as for an
unchanged column. -/
theorem buildTable_delta_empty_old_value :
    buildTable ⟨["NAME"], [("a", ⟨Action.New, [""], [""]⟩)]⟩ [("a", ⟨Action.Unset, ["x"], []⟩)]
      = some (⟨["NAME"], [("a", ⟨Action.Modified, ["x"], [""]⟩)], "*", []⟩,
          ⟨["NAME"], [("a", ⟨Action.Modified, ["x"], [""]⟩)]⟩) ∧
    RowEvents.get? [("a", ⟨Action.Modified, ["x"], [""]⟩)] "a"
      = some ⟨Action.Modified, ["x"], [""]⟩ ∧
    (RowEvent.mk Action.New [""] [""]).Fields[0]? ≠ (RowEvent.mk Action.Unset ["x"] []).Fields[0]? ∧
    (RowEvent.mk Action.Modified ["x"] [""]).Deltas[0]? = some "" := by
  decide

/-- C3, amended: for a key cached in a non-empty cache whose cached row `old` and incoming
row `new` both have the header's length, `Deltas[i]` equals `old[i]` wherever
`old[i] ≠ new[i]` and is the empty string wherever `old[i] = new[i]`; hence `Deltas[i]` is a
non-empty entry exactly when `old[i] ≠ new[i]` and `old[i]` is not the empty string. -/
theorem buildTable_delta_set_iff (c : CachedEventer) (evts : RowEvents) (hwf : evts.WF)
    (hne : c.cache ≠ []) (td : TableData) (c' : CachedEventer)
    (h : buildTable c evts = some (td, c')) (k : String) (old new : RowEvent)
    (ho : c.cache.get? k = some old) (hn : evts.get? k = some new)
    (hlo : old.Fields.length = c.header.length) (_hln : new.Fields.length = c.header.length) :
    ∃ ev, td.Rows.get? k = some ev ∧ ∀ i, i < c.header.length →
      (old.Fields[i]? ≠ new.Fields[i]? → ev.Deltas[i]? = old.Fields[i]?) ∧
      (old.Fields[i]? = new.Fields[i]? → ev.Deltas[i]? = some "") ∧
      (ev.Deltas[i]? ≠ some "" ↔
        (old.Fields[i]? ≠ new.Fields[i]? ∧ old.Fields[i]? ≠ some "")) := by
  obtain ⟨ev, hev, hd⟩ := buildTable_delta_at c evts hwf hne td c' h k old new ho hn hlo
  refine ⟨ev, hev, fun i hi => ?_⟩
  have := hd i hi
  by_cases hf : old.Fields[i]? = new.Fields[i]?
  · simp only [hf, if_true] at this
    simp [this, hf]
  · simp only [hf, if_false] at this
    simp [this, hf]

/-- Witness of the amended C3 on the scenario of the specification. -/
theorem buildTable_delta_set_iff_witness :
    ∃ ev, RowEvents.get? [("a", ⟨Action.Modified, ["a", "2m"], ["", "1m"]⟩)] "a" = some ev ∧
      ev.Deltas[1]? = some "1m" ∧ ev.Deltas[0]? = some "" := by
  obtain ⟨ev, h1, h2⟩ :=
    buildTable_delta_set_iff
      ⟨["NAME", "AGE"], [("a", ⟨Action.New, ["a", "1m"], ["", ""]⟩)]⟩
      [("a", ⟨Action.Unset, ["a", "2m"], []⟩)] (by decide) (by decide)
      ⟨["NAME", "AGE"], [("a", ⟨Action.Modified, ["a", "2m"], ["", "1m"]⟩)], "*", []⟩
      ⟨["NAME", "AGE"], [("a", ⟨Action.Modified, ["a", "2m"], ["", "1m"]⟩)]⟩
      (by decide) "a" ⟨Action.New, ["a", "1m"], ["", ""]⟩
      ⟨Action.Unset, ["a", "2m"], []⟩ (by decide) (by decide) (by decide) (by decide)
  refine ⟨ev, h1, ?_, ?_⟩
  · have := (h2 1 (by decide)).1 (by decide)
    simpa using this
  · have := (h2 0 (by decide)).2.1 (by decide)
    simpa using this

end K9s

namespace K9s
open RowEvents

/-- C4: with an empty cache `buildTable` completes, tags every incoming row `New` whatever
its fields, and gives it a `Deltas` row of empty strings; no row carries another tag. -/
theorem buildTable_first_cycle (c : CachedEventer) (evts : RowEvents) (hwf : evts.WF)
    (hempty : c.cache = []) :
    ∃ td c', buildTable c evts = some (td, c') ∧
      (∀ k new, evts.get? k = some new →
        td.Rows.get? k = some
          { Action := Action.New, Fields := new.Fields,
            Deltas := List.replicate c.header.length "" }) ∧
      (∀ k ev, td.Rows.get? k = some ev →
        ev.Action = Action.New ∧ ev.Action ≠ Action.Added ∧ ev.Action ≠ Action.Modified ∧
        ev.Action ≠ Action.Unchanged ∧ ∀ d ∈ ev.Deltas, d = "") := by
  have han : ∀ k (new : RowEvent), annotate c.header c.cache k new = some
      { Action := Action.New, Fields := new.Fields,
        Deltas := List.replicate c.header.length "" } := by
    intro k new
    simp [annotate, hempty, makeRow]
  obtain ⟨r, hr⟩ := buildTable_total c evts (fun p _ => by simp [han p.1 p.2])
  obtain ⟨td, c'⟩ := r
  refine ⟨td, c', hr, ?_, ?_⟩
  · intro k new hk
    obtain ⟨ev, hev, h2⟩ := buildTable_row c evts hwf td c' hr k new hk
    rw [han k new] at h2
    rw [hev, ← Option.some.inj h2]
  · intro k ev hk
    obtain ⟨new, _, h2⟩ := buildTable_row_back c evts hwf td c' hr k ev hk
    rw [han k new] at h2
    have := Option.some.inj h2
    subst this
    refine ⟨rfl, by simp, by simp, by simp, ?_⟩
    intro d hd
    exact (List.mem_replicate.mp hd).2

/-- Witness of C4: an empty cache and a fetch that already carries a tag and deltas. -/
theorem buildTable_first_cycle_witness :
    ∃ td c', buildTable ⟨["NAME", "AGE"], []⟩
        [("a", ⟨Action.Modified, ["a", "2m"], ["", "1m"]⟩)] = some (td, c') ∧
      td.Rows.get? "a" = some ⟨Action.New, ["a", "2m"], ["", ""]⟩ := by
  obtain ⟨td, c', h, h1, _⟩ := buildTable_first_cycle ⟨["NAME", "AGE"], []⟩
    [("a", ⟨Action.Modified, ["a", "2m"], ["", "1m"]⟩)] (by decide) rfl
  exact ⟨td, c', h, h1 "a" ⟨Action.Modified, ["a", "2m"], ["", "1m"]⟩ (by decide)⟩

/-- C5: when `buildTable` completes, the returned rows and the cache are one and the same
map, whose keys are exactly the incoming keys, each mapped to its annotated incoming event;
a key of the previous cache that the fetch lacks is in neither.  `buildTable` completes
whenever no cached row is longer than its incoming row or the header. -/
theorem buildTable_eviction (c : CachedEventer) (evts : RowEvents) (hwf : evts.WF) :
    ((∀ k old new, c.cache.get? k = some old → evts.get? k = some new →
        old.Fields.length ≤ new.Fields.length ∧ old.Fields.length ≤ c.header.length) →
      ∃ r, buildTable c evts = some r) ∧
    (∀ td c', buildTable c evts = some (td, c') →
      c'.cache = td.Rows ∧
      (∀ k, k ∈ td.Rows.keys ↔ k ∈ evts.keys) ∧
      (∀ k, k ∈ c'.cache.keys ↔ k ∈ evts.keys) ∧
      (∀ k new, evts.get? k = some new →
        ∃ ev, td.Rows.get? k = some ev ∧ c'.cache.get? k = some ev ∧
          annotate c.header c.cache k new = some ev ∧ ev.Fields = new.Fields) ∧
      (∀ k, k ∈ c.cache.keys → k ∉ evts.keys →
        td.Rows.get? k = none ∧ c'.cache.get? k = none)) := by
  refine ⟨buildTable_returns c evts hwf, ?_⟩
  intro td c' h
  obtain ⟨_, _, _, hcache, hann⟩ := buildTable_some c evts hwf td c' h
  have hkeys : td.Rows.keys = evts.keys := hann.keys_eq
  refine ⟨hcache, fun k => by rw [hkeys], fun k => by rw [hcache, hkeys], ?_, ?_⟩
  · intro k new hk
    obtain ⟨ev, hev, han⟩ := hann.get?_fwd k new hk
    exact ⟨ev, hev, by rw [hcache]; exact hev, han, (annotate_action _ _ _ _ _ han).1⟩
  · intro k _ hk
    have : td.Rows.get? k = none := (get?_eq_none_iff _ _).mpr (by rw [hkeys]; exact hk)
    exact ⟨this, by rw [hcache]; exact this⟩

/-- Witness of C5, the scenario of the specification: cache over a and b, fetch over a
only; the output and the cache afterwards hold a only. -/
theorem buildTable_eviction_witness :
    buildTable ⟨["NAME", "AGE"], [("a", ⟨Action.New, ["a", "1m"], ["", ""]⟩),
        ("b", ⟨Action.New, ["b", "1m"], ["", ""]⟩)]⟩ [("a", ⟨Action.Unset, ["a", "1m"], []⟩)]
      = some (⟨["NAME", "AGE"], [("a", ⟨Action.Unchanged, ["a", "1m"], ["", ""]⟩)], "*", []⟩,
          ⟨["NAME", "AGE"], [("a", ⟨Action.Unchanged, ["a", "1m"], ["", ""]⟩)]⟩) ∧
    RowEvents.get? [("a", ⟨Action.Unchanged, ["a", "1m"], ["", ""]⟩)] "b" = none := by
  refine ⟨by decide, ?_⟩
  exact (((buildTable_eviction
    ⟨["NAME", "AGE"], [("a", ⟨Action.New, ["a", "1m"], ["", ""]⟩),
      ("b", ⟨Action.New, ["b", "1m"], ["", ""]⟩)]⟩ [("a", ⟨Action.Unset, ["a", "1m"], []⟩)]
    (by decide)).2
    ⟨["NAME", "AGE"], [("a", ⟨Action.Unchanged, ["a", "1m"], ["", ""]⟩)], "*", []⟩
    ⟨["NAME", "AGE"], [("a", ⟨Action.Unchanged, ["a", "1m"], ["", ""]⟩)]⟩
    (by decide)).2.2.2.2 "b" (by decide) (by decide)).1

end K9s

/-! ## `updateLogs`: delivery -/

namespace K9s

theorem take_set_succ (b : List String) (i : Nat) (l : String) (h : i < b.length) :
    (b.set i l).take (i + 1) = b.take i ++ [l] := by
  induction b generalizing i with
  | nil => simp at h
  | cons x xs ih =>
    cases i with
    | zero => simp
    | succ i =>
      have h' : i < xs.length := by simpa using h
      simp [ih i h']

theorem delivered_append (fs : List FlushCall) (f : FlushCall) :
    delivered (fs ++ [f]) = delivered fs ++ f.lines := by
  simp [delivered]

theorem receivedLines_cons (e : LogEvent) (es : List LogEvent) :
    receivedLines (e :: es) = receivedLines [e] ++ receivedLines es := by
  cases e <;> simp [receivedLines]

theorem LogLoop.run_of_stopped (buffSize : Nat) (s : LogLoop) (es : List LogEvent)
    (h : s.running = false) : s.run buffSize es = some s := by
  cases es with
  | nil => rfl
  | cons e es => simp [LogLoop.run, h]

theorem LogLoop.run_append (buffSize : Nat) (es es' : List LogEvent) :
    ∀ s : LogLoop, s.run buffSize (es ++ es') =
      (s.run buffSize es).bind (fun s' => s'.run buffSize es') := by
  induction es with
  | nil => intro s; simp [LogLoop.run]
  | cons e es ih =>
    intro s
    by_cases hr : s.running = true
    · simp only [List.cons_append, LogLoop.run, hr, if_true]
      cases hs : s.step buffSize e with
      | none => simp
      | some s' => simp [ih s']
    · have hr' : s.running = false := by simpa using hr
      simp [LogLoop.run, hr', LogLoop.run_of_stopped buffSize s es' hr']

/-- One line or timer event keeps the buffer's shape and the account of the lines:
what was flushed followed by the filled part of the buffer is what was received. -/
theorem LogLoop.step_account (buffSize : Nat) (hb : 1 ≤ buffSize) (s : LogLoop)
    (e : LogEvent) (he : e.isLineOrTimer = true) (hlen : s.buff.length = buffSize)
    (hidx : s.index ≤ buffSize) (hrun : s.running = true) :
    ∃ s', s.step buffSize e = some s' ∧ s'.buff.length = buffSize ∧ s'.index ≤ buffSize ∧
      s'.running = true ∧
      delivered s'.flushes ++ s'.buff.take s'.index =
        (delivered s.flushes ++ s.buff.take s.index) ++ receivedLines [e] := by
  cases e with
  | line l =>
    by_cases hi : s.index < buffSize
    · have hst : store s.buff s.index l = some (s.buff.set s.index l) := by
        simp [store, hlen, hi]
      refine ⟨{ s with buff := s.buff.set s.index l, index := s.index + 1 }, ?_, ?_, ?_, ?_, ?_⟩
      · simp [LogLoop.step, hi, hst]
      · simpa using hlen
      · exact hi
      · exact hrun
      · simp [receivedLines, take_set_succ s.buff s.index l (by omega)]
    · have h0 : 0 < s.buff.length := by omega
      have hst : store s.buff 0 l = some (s.buff.set 0 l) := by simp [store, h0]
      refine ⟨⟨s.buff.set 0 l, 0 + 1, s.flushes ++ [⟨s.index, s.buff⟩], s.running⟩,
        ?_, ?_, ?_, ?_, ?_⟩
      · simp [LogLoop.step, hi, hst]
      · simpa using hlen
      · simpa using hb
      · exact hrun
      · simp [receivedLines, delivered_append, FlushCall.lines, take_set_succ s.buff 0 l h0]
  | timer =>
    refine ⟨{ s with flushes := s.flushes ++ [⟨s.index, s.buff⟩], index := 0 }, rfl, hlen,
      Nat.zero_le _, hrun, ?_⟩
    simp [receivedLines, delivered_append, FlushCall.lines]
  | closed => simp [LogEvent.isLineOrTimer] at he
  | cancel => simp [LogEvent.isLineOrTimer] at he

theorem LogLoop.run_account (buffSize : Nat) (hb : 1 ≤ buffSize) (es : List LogEvent) :
    ∀ s : LogLoop, (∀ e ∈ es, e.isLineOrTimer = true) → s.buff.length = buffSize →
      s.index ≤ buffSize → s.running = true →
      ∃ s', s.run buffSize es = some s' ∧ s'.buff.length = buffSize ∧ s'.index ≤ buffSize ∧
        s'.running = true ∧
        delivered s'.flushes ++ s'.buff.take s'.index =
          (delivered s.flushes ++ s.buff.take s.index) ++ receivedLines es := by
  induction es with
  | nil =>
    intro s _ hlen hidx hrun
    exact ⟨s, rfl, hlen, hidx, hrun, by simp [receivedLines]⟩
  | cons e es ih =>
    intro s hes hlen hidx hrun
    obtain ⟨s1, h1, hlen1, hidx1, hrun1, hacc1⟩ :=
      LogLoop.step_account buffSize hb s e (hes e (by simp)) hlen hidx hrun
    obtain ⟨s2, h2, hlen2, hidx2, hrun2, hacc2⟩ :=
      ih s1 (fun e' he' => hes e' (List.mem_cons_of_mem _ he')) hlen1 hidx1 hrun1
    refine ⟨s2, by simp [LogLoop.run, hrun, h1, h2], hlen2, hidx2, hrun2, ?_⟩
    rw [hacc2, hacc1, receivedLines_cons e es, List.append_assoc]

end K9s

namespace K9s

/-- C6: for every capacity `buffSize ≥ 1` and every sequence of line and timer events,
`updateLogs` handles them all and the lines flushed so far, in order, followed by the
filled part of the buffer, are the lines received so far, so the flushed lines are an
initial segment of the received ones; when the channel then closes, the final flush makes
the flushed lines equal to the received ones.  A line received on a full buffer causes a
flush that carries exactly the filled part, after which the cursor is 1 and the new line
is entry 0. -/
theorem updateLogs_delivers (buffSize : Nat) (hb : 1 ≤ buffSize) (events : List LogEvent)
    (hev : ∀ e ∈ events, e.isLineOrTimer = true) :
    (∃ s, updateLogs buffSize events = some s ∧ s.running = true ∧ s.index ≤ buffSize ∧
      delivered s.flushes ++ s.buff.take s.index = receivedLines events ∧
      delivered s.flushes <+: receivedLines events) ∧
    (∃ s, updateLogs buffSize (events ++ [LogEvent.closed]) = some s ∧ s.running = false ∧
      delivered s.flushes = receivedLines events) ∧
    (∀ (s : LogLoop) (l : String), s.buff.length = buffSize → s.index = buffSize →
      ∃ s', s.step buffSize (LogEvent.line l) = some s' ∧
        s'.flushes = s.flushes ++ [⟨s.index, s.buff⟩] ∧
        FlushCall.lines ⟨s.index, s.buff⟩ = s.buff.take s.index ∧
        s'.index = 1 ∧ s'.buff[0]? = some l ∧ s'.buff.take s'.index = [l]) := by
  obtain ⟨s, hs, hlen, hidx, hrun, hacc⟩ :=
    LogLoop.run_account buffSize hb events (LogLoop.init buffSize) hev
      (by simp [LogLoop.init]) (Nat.zero_le _) rfl
  have hacc' : delivered s.flushes ++ s.buff.take s.index = receivedLines events := by
    simpa [LogLoop.init, delivered] using hacc
  refine ⟨⟨s, hs, hrun, hidx, hacc', ⟨_, hacc'⟩⟩, ?_, ?_⟩
  · refine ⟨{ s with flushes := s.flushes ++ [⟨s.index, s.buff⟩], running := false }, ?_, rfl, ?_⟩
    · unfold updateLogs
      rw [LogLoop.run_append, hs]
      simp [LogLoop.run, hrun, LogLoop.step]
    · simpa [delivered_append, FlushCall.lines] using hacc'
  · intro s l hlen hidx
    have h0 : 0 < s.buff.length := by omega
    have hst : store s.buff 0 l = some (s.buff.set 0 l) := by simp [store, h0]
    refine ⟨⟨s.buff.set 0 l, 0 + 1, s.flushes ++ [⟨s.index, s.buff⟩], s.running⟩,
      ?_, rfl, rfl, rfl, ?_, ?_⟩
    · simp [LogLoop.step, hidx, hst]
    · simp [h0]
    · simpa using take_set_succ s.buff 0 l h0

/-- Witness of C6: capacity 2, three lines with a timer fire after the first. -/
theorem updateLogs_delivers_witness :
    ∃ s, updateLogs 2 [LogEvent.line "a", LogEvent.timer, LogEvent.line "b",
        LogEvent.line "c", LogEvent.closed] = some s ∧
      delivered s.flushes = ["a", "b", "c"] := by
  obtain ⟨s, h1, _, h3⟩ := (updateLogs_delivers 2 (by decide)
    [LogEvent.line "a", LogEvent.timer, LogEvent.line "b", LogEvent.line "c"]
    (by decide)).2.1
  exact ⟨s, h1, h3⟩

/-- A burst of lines that fits in the free part of the buffer is stored without a flush. -/
theorem LogLoop.run_fill (buffSize : Nat) (ls : List String) :
    ∀ s : LogLoop, s.buff.length = buffSize → s.index + ls.length ≤ buffSize →
      s.running = true →
      ∃ s', s.run buffSize (ls.map LogEvent.line) = some s' ∧ s'.flushes = s.flushes ∧
        s'.index = s.index + ls.length ∧ s'.buff.length = buffSize ∧ s'.running = true ∧
        s'.buff.take s'.index = s.buff.take s.index ++ ls := by
  induction ls with
  | nil =>
    intro s hlen _ hrun
    exact ⟨s, rfl, rfl, rfl, hlen, hrun, by simp⟩
  | cons l ls ih =>
    intro s hlen hidx hrun
    simp only [List.length_cons] at hidx
    have hi : s.index < buffSize := by omega
    have hst : store s.buff s.index l = some (s.buff.set s.index l) := by
      simp [store, hlen, hi]
    obtain ⟨s', h1, h2, h3, h4, h5, h6⟩ :=
      ih ⟨s.buff.set s.index l, s.index + 1, s.flushes, s.running⟩
        (by simpa using hlen) (by simp only; omega) hrun
    refine ⟨s', ?_, h2, ?_, h4, h5, ?_⟩
    · simpa [LogLoop.run, hrun, LogLoop.step, hi, hst] using h1
    · simp only [h3, List.length_cons]; omega
    · rw [h6]
      simp only [take_set_succ s.buff s.index l (by omega), List.append_assoc,
        List.singleton_append]

/-- With capacity 0 the store `buff[0] = line` of the first line is out of range; the
burst theorem below is stated for a capacity of at least 1. -/
theorem updateLogs_zero_capacity :
    updateLogs 0 [LogEvent.line "x", LogEvent.closed] = none ∧
    (LogLoop.init 0).step 0 (LogEvent.line "x") = none := by
  decide

/-- Counterexample to C7 as stated, in the case of the specification: capacity 10.  Once
the 10th line of the burst has been received the buffer is full, the cursor is 10 and
nothing has been flushed: no flush occurs at line 10.  The flush with `lineCount = 10` is
issued when the 11th line is received. -/
theorem updateLogs_full_buffer_waits :
    (updateLogs 10 (["1", "2", "3", "4", "5", "6", "7", "8", "9", "10"].map
        LogEvent.line)).map (fun s => (s.flushes, s.index)) = some ([], 10) ∧
    (updateLogs 10 (["1", "2", "3", "4", "5", "6", "7", "8", "9", "10", "11"].map
        LogEvent.line)).map (fun s => (s.flushes.map FlushCall.lineCount, s.index))
      = some ([10], 1) := by
  decide

/-- C7, amended: for a capacity `c ≥ 1` and a burst of `c + 1` lines with no timer fire,
no flush occurs at line `c`: once the `c`-th line has been received the buffer is full and
nothing has been flushed; exactly one flush occurs at line `c + 1`, when that line is
received, with `lineCount = c` and carrying the first `c` lines; the second and last flush
is issued on close, with `lineCount = 1` and carrying the last line. -/
theorem updateLogs_burst (c : Nat) (hc : 1 ≤ c) (ls : List String) (hls : ls.length = c + 1) :
    (∃ s, updateLogs c ((ls.take c).map LogEvent.line) = some s ∧ s.flushes = [] ∧
      s.index = c) ∧
    (∃ s, updateLogs c (ls.map LogEvent.line) = some s ∧
      s.flushes.map FlushCall.lineCount = [c] ∧ s.index = 1) ∧
    (∃ s, updateLogs c (ls.map LogEvent.line ++ [LogEvent.closed]) = some s ∧
      s.running = false ∧
      s.flushes.map FlushCall.lineCount = [c, 1] ∧
      s.flushes.map FlushCall.lines = [ls.take c, ls.drop c]) := by
  obtain ⟨s0, h0, hf0, hi0, hl0, hr0, ht0⟩ :=
    LogLoop.run_fill c (ls.take c) (LogLoop.init c) (by simp [LogLoop.init])
      (by simp [LogLoop.init, hls]) rfl
  have hlen : (ls.take c).length = c := by simp [hls]
  have hi0' : s0.index = c := by simpa [LogLoop.init, hlen] using hi0
  have hf0' : s0.flushes = [] := by simpa [LogLoop.init] using hf0
  have hb0 : s0.buff = ls.take c := by
    have ht : s0.buff.take c = ls.take c := by simpa [hi0', LogLoop.init] using ht0
    have hfull : s0.buff.take s0.buff.length = s0.buff := List.take_length _
    rw [hl0] at hfull
    rw [← hfull, ht]
  obtain ⟨x, hx⟩ : ∃ x, ls.drop c = [x] := by
    have hd : (ls.drop c).length = 1 := by simp [hls]
    match hm : ls.drop c, hd with
    | [x], _ => exact ⟨x, rfl⟩
  have hsplit : ls = ls.take c ++ [x] := by rw [← hx, List.take_append_drop]
  have hpos : 0 < s0.buff.length := by omega
  have hst : store s0.buff 0 x = some (s0.buff.set 0 x) := by simp [store, hpos]
  have hstep : s0.step c (LogEvent.line x) =
      some ⟨s0.buff.set 0 x, 0 + 1, s0.flushes ++ [⟨s0.index, s0.buff⟩], s0.running⟩ := by
    simp [LogLoop.step, hi0', hst]
  have h1 : updateLogs c (ls.map LogEvent.line) =
      some ⟨s0.buff.set 0 x, 0 + 1, s0.flushes ++ [⟨s0.index, s0.buff⟩], s0.running⟩ := by
    unfold updateLogs
    conv_lhs => rw [hsplit]
    rw [List.map_append, LogLoop.run_append, h0]
    simp [LogLoop.run, hr0, hstep]
  refine ⟨⟨s0, h0, hf0', hi0'⟩, ⟨_, h1, by simp [hf0', hi0'], rfl⟩, ?_⟩
  refine ⟨⟨s0.buff.set 0 x, 0 + 1,
    (s0.flushes ++ [⟨s0.index, s0.buff⟩]) ++ [⟨0 + 1, s0.buff.set 0 x⟩], false⟩, ?_, rfl, ?_, ?_⟩
  · unfold updateLogs at h1 ⊢
    rw [LogLoop.run_append, h1]
    simp [LogLoop.run, hr0, LogLoop.step]
  · simp [hf0', hi0']
  · have ht : (s0.buff.set 0 x).take 1 = [x] := by
      simpa using take_set_succ s0.buff 0 x hpos
    simp only [hf0', List.nil_append, List.map_cons, List.map_nil, List.singleton_append,
      FlushCall.lines, hi0', hx]
    rw [show 0 + 1 = 1 from rfl, ht, hb0]
    simp [hlen]

/-- Witness of the amended C7 in the case of the specification: capacity 10, 11 lines. -/
theorem updateLogs_burst_witness :
    ∃ s, updateLogs 10 (["1", "2", "3", "4", "5", "6", "7", "8", "9", "10", "11"].map
        LogEvent.line ++ [LogEvent.closed]) = some s ∧
      s.flushes.map FlushCall.lineCount = [10, 1] := by
  obtain ⟨s, h1, _, h3, _⟩ := (updateLogs_burst 10 (by decide)
    ["1", "2", "3", "4", "5", "6", "7", "8", "9", "10", "11"] (by decide)).2.2
  exact ⟨s, h1, h3⟩

end K9s

/-! ## `updateLogs`: flush latency -/

namespace K9s

theorem TimedLoop.init_inv (buffSize : Nat) : (TimedLoop.init buffSize).Inv buffSize := by
  simp [TimedLoop.Inv, TimedLoop.init, LogLoop.init]

theorem TimedLoop.step_inv (buffSize : Nat) (hb : 1 ≤ buffSize) (t : TimedLoop)
    (e : TimedEvent) (he : e.valid = true) (hinv : t.Inv buffSize) :
    ∃ t', t.step buffSize e = some t' ∧ t'.Inv buffSize := by
  obtain ⟨hlen, hidx, hpl, hpend, hlast, hmap, hfl⟩ := hinv
  cases e with
  | line delay l =>
    have hd : delay ≤ 200 := by simpa [TimedEvent.valid, FlushTimeout] using he
    by_cases hi : t.loop.index < buffSize
    · have hst : store t.loop.buff t.loop.index l = some (t.loop.buff.set t.loop.index l) := by
        simp [store, hlen, hi]
      refine ⟨⟨⟨t.loop.buff.set t.loop.index l, t.loop.index + 1, t.loop.flushes,
        t.loop.running⟩, t.now + delay, t.pending ++ [t.now + delay], t.flushedAt⟩, ?_, ?_⟩
      · simp [TimedLoop.step, LogLoop.step, hi, hst, TimedLoop.advance]
      · refine ⟨by simpa using hlen, hi, by simp [hpl], ?_, ?_, hmap, hfl⟩
        · intro a ha
          simp only [List.mem_append, List.mem_singleton] at ha
          simp only [List.length_append, List.length_singleton, FlushTimeout]
          rcases ha with ha | ha
          · have := hpend a ha
            simp only [FlushTimeout] at this
            omega
          · omega
        · intro x hx
          simpa using hx.symm
    · have h0 : 0 < t.loop.buff.length := by omega
      have hfull : t.loop.index = buffSize := by omega
      have hst : store t.loop.buff 0 l = some (t.loop.buff.set 0 l) := by simp [store, h0]
      refine ⟨⟨⟨t.loop.buff.set 0 l, 0 + 1, t.loop.flushes ++ [⟨t.loop.index, t.loop.buff⟩],
        t.loop.running⟩, t.now + delay, [t.now + delay],
        t.flushedAt ++ [(t.now + delay, t.pending)]⟩, ?_, ?_⟩
      · simp [TimedLoop.step, LogLoop.step, hi, hst, TimedLoop.advance]
      · refine ⟨by simpa using hlen, by simpa using hb, rfl, ?_, ?_, ?_, ?_⟩
        · intro a ha
          simp only [List.mem_singleton] at ha
          simp only [List.length_singleton, FlushTimeout]
          omega
        · intro x hx
          simpa using hx.symm
        · simp [hmap, hpl]
        · intro f hf
          simp only [List.mem_append, List.mem_singleton] at hf
          rcases hf with hf | hf
          · exact hfl f hf
          · subst hf
            refine ⟨fun a ha => ?_, fun x hx => ?_⟩
            · have := hpend a ha
              simp only [FlushTimeout, hpl, hfull] at this ⊢
              omega
            · have := hlast x hx
              simp only [FlushTimeout]
              omega
  | timer =>
    refine ⟨⟨⟨t.loop.buff, 0, t.loop.flushes ++ [⟨t.loop.index, t.loop.buff⟩],
      t.loop.running⟩, t.now + FlushTimeout, [],
      t.flushedAt ++ [(t.now + FlushTimeout, t.pending)]⟩, ?_, ?_⟩
    · simp [TimedLoop.step, LogLoop.step, TimedLoop.advance]
    · refine ⟨hlen, Nat.zero_le _, rfl, by simp, by simp, by simp [hmap, hpl], ?_⟩
      intro f hf
      simp only [List.mem_append, List.mem_singleton] at hf
      rcases hf with hf | hf
      · exact hfl f hf
      · subst hf
        refine ⟨fun a ha => ?_, fun x hx => ?_⟩
        · have := hpend a ha
          have hle : t.pending.length ≤ buffSize := by omega
          simp only [FlushTimeout] at this ⊢
          omega
        · have := hlast x hx
          simp only [FlushTimeout]
          omega

theorem TimedLoop.run_inv (buffSize : Nat) (hb : 1 ≤ buffSize) (es : List TimedEvent) :
    ∀ t : TimedLoop, (∀ e ∈ es, e.valid = true) → t.Inv buffSize →
      ∃ t', t.run buffSize es = some t' ∧ t'.Inv buffSize := by
  induction es with
  | nil => intro t _ hinv; exact ⟨t, rfl, hinv⟩
  | cons e es ih =>
    intro t hes hinv
    obtain ⟨t1, h1, hinv1⟩ := TimedLoop.step_inv buffSize hb t e (hes e (by simp)) hinv
    obtain ⟨t2, h2, hinv2⟩ := ih t1 (fun e' he' => hes e' (List.mem_cons_of_mem _ he')) hinv1
    exact ⟨t2, by simp [TimedLoop.run, h1, h2], hinv2⟩

end K9s

namespace K9s

/-- Counterexample to C8 as stated: capacity `logBuffSize`, lines arriving at 0, 150 and
300 ms.  Each arrival restarts the timer, so at 300 ms the line that arrived at 0 is still
pending, and it is flushed at 500 ms, when the timer first fires. -/
theorem updateLogs_timer_restarts :
    (∀ e ∈ [TimedEvent.line 0 "a", TimedEvent.line 150 "b", TimedEvent.line 150 "c"],
      e.valid = true) ∧
    ((TimedLoop.init logBuffSize).run logBuffSize
      [TimedEvent.line 0 "a", TimedEvent.line 150 "b", TimedEvent.line 150 "c"]).map
        (fun t => (t.now, t.pending, t.flushedAt)) = some (300, [0, 150, 300], []) ∧
    ((TimedLoop.init logBuffSize).run logBuffSize
      [TimedEvent.line 0 "a", TimedEvent.line 150 "b", TimedEvent.line 150 "c",
        TimedEvent.timer]).map
        (fun t => (t.flushedAt, t.loop.flushes.map FlushCall.lineCount))
      = some ([(500, [0, 150, 300])], [3]) ∧
    ¬ (500 ≤ 0 + FlushTimeout) := by
  decide

/-- C8, amended: the timer is started anew, with the fixed delay `FlushTimeout`, by every
iteration of the loop, so also by every line received.  In every run of `updateLogs` that
is neither cancelled nor closed, with capacity `buffSize ≥ 1`: a flush comes no later than
`FlushTimeout` after the newest line it carries arrived and no later than
`buffSize * FlushTimeout` after any line it carries arrived; a line still pending arrived
less than `buffSize * FlushTimeout` ago; and when no line is received for `FlushTimeout`
the timer fires and flushes every pending line. -/
theorem updateLogs_flush_latency (buffSize : Nat) (hb : 1 ≤ buffSize)
    (events : List TimedEvent) (hv : ∀ e ∈ events, e.valid = true) :
    ∃ t, (TimedLoop.init buffSize).run buffSize events = some t ∧
      t.pending.length = t.loop.index ∧
      t.flushedAt.map (fun f => f.2.length) = t.loop.flushes.map FlushCall.lineCount ∧
      (∀ a ∈ t.pending, a ≤ t.now ∧ t.now + FlushTimeout ≤ a + buffSize * FlushTimeout) ∧
      (∀ x, t.pending.getLast? = some x → x = t.now) ∧
      (∀ f ∈ t.flushedAt,
        (∀ a ∈ f.2, a ≤ f.1 ∧ f.1 ≤ a + buffSize * FlushTimeout) ∧
        (∀ x, f.2.getLast? = some x → f.1 ≤ x + FlushTimeout)) ∧
      (∃ t', t.step buffSize TimedEvent.timer = some t' ∧ t'.pending = [] ∧
        t'.now = t.now + FlushTimeout ∧
        t'.flushedAt = t.flushedAt ++ [(t.now + FlushTimeout, t.pending)]) := by
  obtain ⟨t, ht, hinv⟩ :=
    TimedLoop.run_inv buffSize hb events (TimedLoop.init buffSize) hv
      (TimedLoop.init_inv buffSize)
  obtain ⟨_, hidx, hpl, hpend, hlast, hmap, hfl⟩ := hinv
  refine ⟨t, ht, hpl, hmap, ?_, hlast, hfl, ?_⟩
  · intro a ha
    have := hpend a ha
    have hle : t.pending.length ≤ buffSize := by omega
    simp only [FlushTimeout] at this ⊢
    omega
  · refine ⟨⟨⟨t.loop.buff, 0, t.loop.flushes ++ [⟨t.loop.index, t.loop.buff⟩],
      t.loop.running⟩, t.now + FlushTimeout, [],
      t.flushedAt ++ [(t.now + FlushTimeout, t.pending)]⟩, ?_, rfl, rfl, rfl⟩
    simp [TimedLoop.step, LogLoop.step, TimedLoop.advance]

/-- Witness of the amended C8, the simple case of the specification: one line, received
50 ms after the loop started, and nothing else; the only flush comes 200 ms after the line,
at 250 ms, with `lineCount = 1`, and the timer cannot fire again before 450 ms. -/
theorem updateLogs_flush_latency_witness :
    ∃ t, (TimedLoop.init logBuffSize).run logBuffSize
        [TimedEvent.line 50 "x", TimedEvent.timer] = some t ∧
      t.flushedAt = [(250, [50])] ∧ t.loop.flushes.map FlushCall.lineCount = [1] ∧
      t.now + FlushTimeout = 450 := by
  obtain ⟨t, ht, _⟩ := updateLogs_flush_latency logBuffSize (by decide)
    [TimedEvent.line 50 "x", TimedEvent.timer] (by decide)
  have hval : ((TimedLoop.init logBuffSize).run logBuffSize
      [TimedEvent.line 50 "x", TimedEvent.timer]).map
        (fun t => (t.flushedAt, t.loop.flushes.map FlushCall.lineCount, t.now + FlushTimeout))
      = some ([(250, [50])], [1], 450) := by decide
  rw [ht] at hval
  simp only [Option.map_some', Option.some.injEq, Prod.mk.injEq] at hval
  exact ⟨t, ht, hval.1, hval.2.1, hval.2.2⟩

end K9s

/-! ## `tableView.update` and `tableView.filtered` -/

namespace K9s
open RowEvents

theorem filteredLoop_eq (env : TableEnv) (rx : env.Regexp) :
    ∀ (todo acc : RowEvents), todo.keys.Nodup → (∀ k ∈ todo.keys, k ∉ acc.keys) →
      filteredLoop env rx todo acc =
        acc ++ todo.filter (fun p => env.matchString rx (String.intercalate " " p.2.Fields)) := by
  intro todo
  induction todo with
  | nil => intro acc _ _; simp [filteredLoop]
  | cons p rest ih =>
    intro acc hnd hacc
    obtain ⟨k, row⟩ := p
    have hnd' : k ∉ keys rest ∧ (keys rest).Nodup := by simpa [keys] using hnd
    have hsub : ∀ k' ∈ keys rest, k' ∈ keys ((k, row) :: rest) := fun k' hk' => by
      simp only [keys, List.map_cons, List.mem_cons]
      exact Or.inr hk'
    by_cases hm : env.matchString rx (String.intercalate " " row.Fields) = true
    · have hk : k ∉ acc.keys := hacc k (by simp [keys])
      simp only [filteredLoop, hm, if_true, List.filter_cons]
      rw [put_of_not_mem acc k row hk, ih _ hnd'.2, List.append_assoc]
      · rfl
      · intro k' hk'
        have hne : k' ≠ k := fun he => hnd'.1 (he ▸ hk')
        have := hacc k' (hsub k' hk')
        simp only [keys, List.map_append, List.map_cons, List.map_nil, List.mem_append,
          List.mem_singleton, not_or]
        exact ⟨this, hne⟩
    · simp only [filteredLoop, hm, if_false, List.filter_cons]
      exact ih acc hnd'.2 (fun k' hk' => hacc k' (hsub k' hk'))

theorem RowEvents.get?_filter (m : RowEvents) (hwf : m.WF) (p : String × RowEvent → Bool)
    (k : String) (ev : RowEvent) :
    RowEvents.get? (m.filter p) k = some ev ↔ m.get? k = some ev ∧ p (k, ev) = true := by
  have hwf' : RowEvents.WF (m.filter p) :=
    List.Nodup.sublist ((List.filter_sublist m).map Prod.fst) hwf
  constructor
  · intro h
    have hmem := mem_of_get? _ k ev h
    rw [List.mem_filter] at hmem
    exact ⟨get?_of_mem m hwf k ev hmem.1, hmem.2⟩
  · intro h
    exact get?_of_mem _ hwf' k ev (List.mem_filter.mpr ⟨mem_of_get? m k ev h.1, h.2⟩)

/-- C9: the table `update` hands on for display keeps the header and the namespace of
`data`; its rows are all rows of `data` when the filter buffer is empty or holds a label
selector; otherwise, when the pattern prefixed with `(?i)` compiles, they are exactly the
rows of `data` whose fields joined by single spaces match it, under their own keys.  In
every case the dataset stored in the view is `data`, with every row. -/
theorem update_displayed_rows (env : TableEnv) (v : TableView) (data : TableData)
    (hwf : data.Rows.WF) :
    (update env v data).2.Header = data.Header ∧
    (update env v data).2.Namespace = data.Namespace ∧
    (update env v data).1.data = data ∧
    ((v.cmdBuff.empty = true ∨ env.isLabelSelector v.cmdBuff.string = true) →
      (update env v data).2.Rows = data.Rows) ∧
    (v.cmdBuff.empty = false → env.isLabelSelector v.cmdBuff.string = false →
      ∀ rx, env.compile ("(?i)" ++ v.cmdBuff.string) = some rx →
        ∀ k ev, (update env v data).2.Rows.get? k = some ev ↔
          (data.Rows.get? k = some ev ∧
            env.matchString rx (String.intercalate " " ev.Fields) = true)) := by
  by_cases hc : (v.cmdBuff.empty || env.isLabelSelector v.cmdBuff.string) = true
  · have hu : update env v data =
        doUpdate { v with currentNS := data.Namespace, data := data } data := by
      simp only [update, hc, if_true]
    rw [hu]
    refine ⟨rfl, rfl, rfl, fun _ => rfl, ?_⟩
    intro h1 h2
    simp [h1, h2] at hc
  · have hc' : (v.cmdBuff.empty || env.isLabelSelector v.cmdBuff.string) = false := by
      simpa using hc
    have hu : update env v data =
        doUpdate (filtered env { v with currentNS := data.Namespace, data := data }).1
          (filtered env { v with currentNS := data.Namespace, data := data }).2 := by
      simp only [update, hc']
      rfl
    rw [hu]
    cases hcomp : env.compile ("(?i)" ++ v.cmdBuff.string) with
    | none =>
      simp only [filtered, hcomp, doUpdate]
      refine ⟨trivial, trivial, trivial, fun _ => trivial, ?_⟩
      intro _ _ rx hrx
      simp at hrx
    | some rx0 =>
      simp only [filtered, hcomp, doUpdate]
      refine ⟨trivial, trivial, trivial, ?_, ?_⟩
      · intro h
        rcases h with h | h <;> simp [h] at hc'
      · intro _ _ rx hrx k ev
        have : rx0 = rx := Option.some.inj hrx
        subst this
        rw [filteredLoop_eq env rx0 data.Rows [] hwf (by simp [keys]), List.nil_append]
        exact RowEvents.get?_filter data.Rows hwf _ k ev

end K9s

namespace K9s

/-- Witness of C9: a toy regular-expression engine whose patterns match one text only;
with the filter text `a 1m` the table handed on holds the row of key a, and not that of b. -/
theorem update_displayed_rows_witness :
    (update ⟨String, fun s => some s, fun rx s => decide (rx = "(?i)" ++ s),
          fun s => decide (s = "-l")⟩
        ⟨⟨[], [], "", []⟩, "", ⟨"a 1m", false⟩, ⟨0, 0, true⟩, []⟩
        ⟨["NAME", "AGE"], [("a", ⟨Action.New, ["a", "1m"], ["", ""]⟩),
          ("b", ⟨Action.New, ["b", "2m"], ["", ""]⟩)], "*", []⟩).2.Rows.get? "a"
      = some ⟨Action.New, ["a", "1m"], ["", ""]⟩ ∧
    RowEvents.get? [("a", ⟨Action.New, ["a", "1m"], ["", ""]⟩),
          ("b", ⟨Action.New, ["b", "2m"], ["", ""]⟩)] "a"
      = some ⟨Action.New, ["a", "1m"], ["", ""]⟩ := by
  refine ⟨?_, by decide⟩
  exact ((update_displayed_rows
    ⟨String, fun s => some s, fun rx s => decide (rx = "(?i)" ++ s), fun s => decide (s = "-l")⟩
    ⟨⟨[], [], "", []⟩, "", ⟨"a 1m", false⟩, ⟨0, 0, true⟩, []⟩
    ⟨["NAME", "AGE"], [("a", ⟨Action.New, ["a", "1m"], ["", ""]⟩),
      ("b", ⟨Action.New, ["b", "2m"], ["", ""]⟩)], "*", []⟩
    (by decide)).2.2.2.2 (by decide) (by decide) "(?i)a 1m" (by decide)
    "a" ⟨Action.New, ["a", "1m"], ["", ""]⟩).mpr ⟨by decide, by decide⟩

/-! ## `tableView.adjustSorter` -/

theorem wrapInt_of_range (x : Int) (hlo : -(2 ^ 63) ≤ x) (hhi : x < 2 ^ 63) : wrapInt x = x := by
  unfold wrapInt
  omega

/-- Counterexample to C10 as stated: recorded column count 3, sort index 1, new header of
width 5; the index becomes 2, not 1 + (5 - 3) = 3. -/
theorem adjustSorter_two_columns_wider :
    adjustSorter ⟨1, 3, true⟩ ⟨["NAMESPACE", "NAME", "READY", "STATUS", "AGE"], [], "", []⟩
      = ⟨2, 5, true⟩ ∧
    (adjustSorter ⟨1, 3, true⟩
        ⟨["NAMESPACE", "NAME", "READY", "STATUS", "AGE"], [], "", []⟩).index
      ≠ max 0 (1 + ((5 : Int) - 3)) := by
  decide

/-- C10, amended: when `adjustSorter` is given a table whose header width differs from the
recorded column count (`colCount ≠ 0`), the sort index moves by one column in the
direction of the change, `index + 1` for a wider header and `index - 1` for a narrower one,
clamped to zero if negative, and `colCount` becomes the header width; this is
`index + (len(Header) - colCount)` exactly when the width changed by one column. -/
theorem adjustSorter_shift (s : SortColumn) (data : TableData) (h0 : s.colCount ≠ 0)
    (_hd : (data.Header.length : Int) ≠ s.colCount)
    (hlo : -(2 ^ 63) < s.index) (hhi : s.index < 2 ^ 63 - 1) :
    (adjustSorter s data).colCount = (data.Header.length : Int) ∧
    (adjustSorter s data).asc = s.asc ∧
    ((data.Header.length : Int) > s.colCount →
      (adjustSorter s data).index = max 0 (s.index + 1)) ∧
    ((data.Header.length : Int) < s.colCount →
      (adjustSorter s data).index = max 0 (s.index - 1)) ∧
    (((data.Header.length : Int) - s.colCount = 1 ∨
        (data.Header.length : Int) - s.colCount = -1) →
      (adjustSorter s data).index =
        max 0 (s.index + ((data.Header.length : Int) - s.colCount))) := by
  have hup : wrapInt (s.index + 1) = s.index + 1 := wrapInt_of_range _ (by omega) (by omega)
  have hdn : wrapInt (s.index - 1) = s.index - 1 := wrapInt_of_range _ (by omega) (by omega)
  have hgt : (data.Header.length : Int) > s.colCount →
      (adjustSorter s data).index = max 0 (s.index + 1) := by
    intro h
    simp only [adjustSorter, h0, if_false, h, if_true, hup]
    by_cases hn : s.index + 1 < 0
    · simp only [hn, if_true]; omega
    · simp only [hn, if_false]; omega
  have hlt : (data.Header.length : Int) < s.colCount →
      (adjustSorter s data).index = max 0 (s.index - 1) := by
    intro h
    have h' : ¬ (data.Header.length : Int) > s.colCount := by omega
    simp only [adjustSorter, h0, if_false, h', h, if_true, hdn]
    by_cases hn : s.index - 1 < 0
    · simp only [hn, if_true]; omega
    · simp only [hn, if_false]; omega
  refine ⟨rfl, rfl, hgt, hlt, ?_⟩
  intro h
  rcases h with h | h
  · rw [h]; exact hgt (by omega)
  · rw [h]; exact hlt (by omega)

/-- Witness of the amended C10: going from 3 to 4 columns moves the sort index from 1
to 2. -/
theorem adjustSorter_shift_witness :
    (adjustSorter ⟨1, 3, true⟩ ⟨["NAMESPACE", "NAME", "KIND", "AGE"], [], "", []⟩).index = 2 := by
  have h := (adjustSorter_shift ⟨1, 3, true⟩ ⟨["NAMESPACE", "NAME", "KIND", "AGE"], [], "", []⟩
    (by decide) (by decide) (by decide) (by decide)).2.2.1 (by decide)
  simpa using h

end K9s

/-! ## `subjectView.reconcile` and `subjectView.refresh` -/

namespace K9s
open RowEvents

theorem RowEvents.get?_put (m : RowEvents) (k : String) (e : RowEvent) (k' : String) :
    (m.put k e).get? k' = if k = k' then some e else m.get? k' := by
  induction m with
  | nil => simp [put, get?]
  | cons p rest ih =>
    obtain ⟨k0, e0⟩ := p
    by_cases h0 : k0 = k
    · subst h0
      by_cases h1 : k0 = k' <;> simp [put, get?, h1]
    · by_cases h1 : k0 = k'
      · subst h1
        have h2 : ¬ k = k0 := fun h => h0 h.symm
        simp [put, get?, h0, h2]
      · simp [put, get?, h0, h1, ih]

theorem RowEvents.keys_put (m : RowEvents) (k : String) (e : RowEvent) :
    (m.put k e).keys = if k ∈ m.keys then m.keys else m.keys ++ [k] := by
  induction m with
  | nil => simp [put, keys]
  | cons p rest ih =>
    obtain ⟨k0, e0⟩ := p
    by_cases h0 : k0 = k
    · subst h0
      simp [put, keys]
    · have h2 : ¬ k = k0 := fun h => h0 h.symm
      have ih' := ih
      simp only [keys] at ih'
      by_cases hm : k ∈ List.map Prod.fst rest
      · simp [put, keys, h0, h2, hm, ih']
      · simp [put, keys, h0, h2, hm, ih']

theorem RowEvents.put_WF (m : RowEvents) (k : String) (e : RowEvent) (h : m.WF) :
    (m.put k e).WF := by
  unfold WF at h ⊢
  rw [RowEvents.keys_put]
  by_cases hm : k ∈ m.keys
  · simpa [hm] using h
  · simp only [hm, if_false]
    exact List.Nodup.append h (List.nodup_singleton k) (by
      intro x hx hx'
      exact hm (by rwa [List.mem_singleton.mp hx'] at hx))

theorem mergeEvents_get? :
    ∀ (nevts evts : RowEvents), nevts.WF → ∀ k,
      (mergeEvents evts nevts).get? k =
        match nevts.get? k with
        | some e => some e
        | none => evts.get? k := by
  intro nevts
  induction nevts with
  | nil => intro evts _ k; simp [mergeEvents, get?]
  | cons p rest ih =>
    intro evts hwf k
    obtain ⟨k0, e0⟩ := p
    have hnd : k0 ∉ keys rest ∧ (keys rest).Nodup := by simpa [WF, keys] using hwf
    rw [mergeEvents, ih (evts.put k0 e0) hnd.2 k, RowEvents.get?_put]
    by_cases h0 : k0 = k
    · subst h0
      have hnone : get? rest k0 = none := (get?_eq_none_iff rest k0).mpr hnd.1
      simp [get?, hnone]
    · simp [get?, h0]

theorem mergeEvents_WF :
    ∀ (nevts evts : RowEvents), evts.WF → (mergeEvents evts nevts).WF := by
  intro nevts
  induction nevts with
  | nil => intro evts h; exact h
  | cons p rest ih =>
    intro evts h
    obtain ⟨k0, e0⟩ := p
    exact ih _ (RowEvents.put_WF evts k0 e0 h)

/-- C11: when `clusterSubjects` fails, or when it succeeds and `namespacedSubjects` fails,
`reconcile` returns that error with the empty `TableData` and leaves the view, its cache
included, exactly as it was; the next cycle therefore runs against the same cache. -/
theorem reconcile_fetch_failure (v : SubjectView) (err : String) (evts : RowEvents)
    (namespacedSubjects : Except String RowEvents) :
    v.reconcile (Except.error err) namespacedSubjects
      = some ((emptyTableData, some err), v) ∧
    v.reconcile (Except.ok evts) (Except.error err)
      = some ((emptyTableData, some err), v) ∧
    (∀ r, v.reconcile (Except.error err) namespacedSubjects = some r →
      r.2.cache = v.cache ∧ r.1.1.Rows = [] ∧ r.1.2 = some err) ∧
    (∀ r, v.reconcile (Except.ok evts) (Except.error err) = some r →
      r.2.cache = v.cache ∧ r.1.1.Rows = [] ∧ r.1.2 = some err) := by
  have h1 : v.reconcile (Except.error err) namespacedSubjects
      = some ((emptyTableData, some err), v) := rfl
  have h2 : v.reconcile (Except.ok evts) (Except.error err)
      = some ((emptyTableData, some err), v) := rfl
  refine ⟨h1, h2, ?_, ?_⟩
  · intro r hr
    rw [h1] at hr
    cases hr
    exact ⟨rfl, rfl, rfl⟩
  · intro r hr
    rw [h2] at hr
    cases hr
    exact ⟨rfl, rfl, rfl⟩

/-- Witness of C11: a view caching the key a; the cluster fetch fails. -/
theorem reconcile_fetch_failure_witness :
    ∃ r, SubjectView.reconcile
        ⟨⟨emptyTableData, "", ⟨"", false⟩, ⟨0, 0, true⟩, []⟩,
          [("a", ⟨Action.New, ["a", "User", "crb"], ["", "", ""]⟩)]⟩
        (Except.error "connection refused") (Except.ok []) = some r ∧
      r.2.cache = [("a", ⟨Action.New, ["a", "User", "crb"], ["", "", ""]⟩)] ∧
      r.1.2 = some "connection refused" := by
  refine ⟨_, rfl, ?_⟩
  have h := (reconcile_fetch_failure
    ⟨⟨emptyTableData, "", ⟨"", false⟩, ⟨0, 0, true⟩, []⟩,
      [("a", ⟨Action.New, ["a", "User", "crb"], ["", "", ""]⟩)]⟩
    "connection refused" [] (Except.ok [])).2.2.1 _ rfl
  exact ⟨h.1, h.2.2⟩

theorem update_shape (env : TableEnv) (v : TableView) (data : TableData) :
    (update env v data).1.data = data ∧ (update env v data).2.Header = data.Header ∧
      (update env v data).2.Namespace = data.Namespace := by
  by_cases hc : (v.cmdBuff.empty || env.isLabelSelector v.cmdBuff.string) = true
  · have hu : update env v data =
        doUpdate { v with currentNS := data.Namespace, data := data } data := by
      simp only [update, hc, if_true]
    rw [hu]
    exact ⟨rfl, rfl, rfl⟩
  · have hc' : (v.cmdBuff.empty || env.isLabelSelector v.cmdBuff.string) = false := by
      simpa using hc
    have hu : update env v data =
        doUpdate (filtered env { v with currentNS := data.Namespace, data := data }).1
          (filtered env { v with currentNS := data.Namespace, data := data }).2 := by
      simp only [update, hc']
      rfl
    rw [hu]
    cases hcomp : env.compile ("(?i)" ++ v.cmdBuff.string) with
    | none => simp [filtered, hcomp, doUpdate]
    | some rx0 => simp [filtered, hcomp, doUpdate]

/-- On a failed reconciliation `refresh` still calls `update`, with the empty table. -/
theorem refresh_on_failure (env : TableEnv) (v : SubjectView) (err : String)
    (namespacedSubjects : Except String RowEvents) :
    ∃ v' shown, v.refresh env (Except.error err) namespacedSubjects = some (v', shown) ∧
      v'.table.data = emptyTableData ∧ v'.cache = v.cache ∧
      shown.Header = [] ∧ shown.Namespace = "" := by
  refine ⟨_, _, rfl, ?_, rfl, ?_, ?_⟩
  · exact (update_shape env v.table emptyTableData).1
  · exact (update_shape env v.table emptyTableData).2.1
  · exact (update_shape env v.table emptyTableData).2.2

end K9s

namespace K9s
open RowEvents

/-- C12, the code at a failing fetch: the view shows the row of key a from the last
successful reconciliation and the cluster fetch fails; `refresh` hands the empty table to
`update`, so afterwards the dataset of the view is empty and no row is displayed, while
the cache still holds a. -/
theorem refresh_failure_blanks_view :
    (SubjectView.refresh
        ⟨String, fun s => some s, fun rx s => decide (rx = "(?i)" ++ s),
          fun s => decide (s = "-l")⟩
        ⟨⟨⟨subjectHeader, [("a", ⟨Action.New, ["a", "User", "crb"], ["", "", ""]⟩)], "*", []⟩,
            "*", ⟨"", false⟩, ⟨1, 3, true⟩, []⟩,
          [("a", ⟨Action.New, ["a", "User", "crb"], ["", "", ""]⟩)]⟩
        (Except.error "connection refused") (Except.ok [])).map
      (fun r => (r.1.table.data, r.2, r.1.cache))
      = some (emptyTableData, emptyTableData,
          [("a", ⟨Action.New, ["a", "User", "crb"], ["", "", ""]⟩)]) ∧
    (⟨subjectHeader, [("a", ⟨Action.New, ["a", "User", "crb"], ["", "", ""]⟩)], "*", []⟩ :
      TableData) ≠ emptyTableData := by
  decide

/-- C13: when the text of the filter buffer, prefixed with `(?i)`, does not compile,
`filtered` returns the stored dataset as it is, leaves it stored, hands the error
`Invalid filter expression` to the flash and clears the text of the filter buffer. -/
theorem filtered_invalid_pattern (env : TableEnv) (v : TableView)
    (h : env.compile ("(?i)" ++ v.cmdBuff.string) = none) :
    (filtered env v).2 = v.data ∧
    (filtered env v).1.data = v.data ∧
    (filtered env v).1.cmdBuff.empty = true ∧
    (filtered env v).1.cmdBuff.string = "" ∧
    (filtered env v).1.flashErrs = v.flashErrs ++ ["Invalid filter expression"] ∧
    (filtered env v).1.sortCol = v.sortCol := by
  have hf : filtered env v =
      ({ v with flashErrs := v.flashErrs ++ ["Invalid filter expression"],
                cmdBuff := v.cmdBuff.clear }, v.data) := by
    simp only [filtered, h]
  rw [hf]
  exact ⟨rfl, rfl, rfl, rfl, rfl, rfl⟩

/-- Witness of C13: a toy engine that rejects the pattern `(?i)[`; the filter text is `[`. -/
theorem filtered_invalid_pattern_witness :
    (filtered ⟨String, fun s => if s = "(?i)[" then none else some s,
          fun rx s => decide (rx = "(?i)" ++ s), fun s => decide (s = "-l")⟩
        ⟨⟨["NAME", "AGE"], [("a", ⟨Action.New, ["a", "1m"], ["", ""]⟩)], "*", []⟩, "*",
          ⟨"[", true⟩, ⟨0, 2, true⟩, []⟩).2
      = ⟨["NAME", "AGE"], [("a", ⟨Action.New, ["a", "1m"], ["", ""]⟩)], "*", []⟩ :=
  (filtered_invalid_pattern
    ⟨String, fun s => if s = "(?i)[" then none else some s,
      fun rx s => decide (rx = "(?i)" ++ s), fun s => decide (s = "-l")⟩
    ⟨⟨["NAME", "AGE"], [("a", ⟨Action.New, ["a", "1m"], ["", ""]⟩)], "*", []⟩, "*",
      ⟨"[", true⟩, ⟨0, 2, true⟩, []⟩ (by decide)).1

/-- C14: the snapshot `reconcile` passes to `buildTable` maps every key of the
namespace-scoped subjects to the namespace-scoped row and every other key of the
cluster-scoped subjects to the cluster-scoped row, so its keys are the union of both key
sets; the merge keeps a map a map and adds no error: `reconcile` returns what `buildTable`
returns on the merged snapshot, with a nil error. -/
theorem reconcile_merge_last_write_wins (v : SubjectView) (evts nevts : RowEvents)
    (hn : nevts.WF) :
    (∀ k e, nevts.get? k = some e → (mergeEvents evts nevts).get? k = some e) ∧
    (∀ k, nevts.get? k = none → (mergeEvents evts nevts).get? k = evts.get? k) ∧
    (∀ k, k ∈ (mergeEvents evts nevts).keys ↔ (k ∈ evts.keys ∨ k ∈ nevts.keys)) ∧
    (evts.WF → (mergeEvents evts nevts).WF) ∧
    v.reconcile (Except.ok evts) (Except.ok nevts) =
      (buildTable { header := subjectHeader, cache := v.cache } (mergeEvents evts nevts)).map
        (fun r => ((r.1, none), { v with cache := r.2.cache })) := by
  have hget := mergeEvents_get? nevts evts hn
  refine ⟨?_, ?_, ?_, mergeEvents_WF nevts evts, ?_⟩
  · intro k e hk
    rw [hget k, hk]
  · intro k hk
    rw [hget k, hk]
  · intro k
    rw [← get?_isSome_iff, ← get?_isSome_iff, ← get?_isSome_iff, hget k]
    cases hk : nevts.get? k <;> simp
  · simp only [SubjectView.reconcile]
    cases buildTable { header := subjectHeader, cache := v.cache } (mergeEvents evts nevts) with
    | none => rfl
    | some r => rfl

/-- Witness of C14: alice is bound cluster-wide and in a namespace, bob cluster-wide only;
the merged snapshot holds the namespace-scoped row of alice and the row of bob. -/
theorem reconcile_merge_last_write_wins_witness :
    (mergeEvents [("alice", ⟨Action.Unset, ["alice", "ClusterRoleBinding", "admin"], []⟩),
        ("bob", ⟨Action.Unset, ["bob", "ClusterRoleBinding", "view"], []⟩)]
      [("alice", ⟨Action.Unset, ["alice", "RoleBinding", "edit"], []⟩)]).get? "alice"
      = some ⟨Action.Unset, ["alice", "RoleBinding", "edit"], []⟩ ∧
    (mergeEvents [("alice", ⟨Action.Unset, ["alice", "ClusterRoleBinding", "admin"], []⟩),
        ("bob", ⟨Action.Unset, ["bob", "ClusterRoleBinding", "view"], []⟩)]
      [("alice", ⟨Action.Unset, ["alice", "RoleBinding", "edit"], []⟩)]).get? "bob"
      = some ⟨Action.Unset, ["bob", "ClusterRoleBinding", "view"], []⟩ := by
  have h := reconcile_merge_last_write_wins
    ⟨⟨emptyTableData, "", ⟨"", false⟩, ⟨0, 0, true⟩, []⟩, []⟩
    [("alice", ⟨Action.Unset, ["alice", "ClusterRoleBinding", "admin"], []⟩),
      ("bob", ⟨Action.Unset, ["bob", "ClusterRoleBinding", "view"], []⟩)]
    [("alice", ⟨Action.Unset, ["alice", "RoleBinding", "edit"], []⟩)] (by decide)
  refine ⟨h.1 "alice" _ (by decide), ?_⟩
  rw [h.2.1 "bob" (by decide)]
  decide

end K9s
/-! ## `CustomResourceDefinition.ExtFields` -/

namespace K9s

theorem asMap_eq_some (m : Obj) (s : String) (x : Obj) :
    asMap m s = some x ↔ getField m s = some (Value.map x) := by
  unfold asMap
  split <;> simp_all

theorem mapStr_eq_ok (m : Obj) (s : String) (v : String) :
    mapStr m s = Except.ok v ↔ getField m s = some (Value.str v) := by
  unfold mapStr
  split <;> simp_all

/-- The error of `mapStr` names the field it was asked for. -/
theorem mapStr_cases (m : Obj) (s : String) :
    (getField m s = none → mapStr m s = Except.error ("Unable to locate CRD field " ++ s)) ∧
    (∀ x, getField m s = some x → (∀ v, x ≠ Value.str v) →
      mapStr m s = Except.error ("No string type for CRD field " ++ s)) ∧
    (∀ v, getField m s = some (Value.str v) → mapStr m s = Except.ok v) := by
  refine ⟨?_, ?_, ?_⟩
  · intro h
    simp [mapStr, h]
  · intro x h hx
    cases x with
    | str v => exact absurd rfl (hx v)
    | null => simp [mapStr, h]
    | list l => simp [mapStr, h]
    | map mp => simp [mapStr, h]
    | other => simp [mapStr, h]
  · intro v h
    simp [mapStr, h]

theorem ExtFields_nil_iff (inst : Obj) (m : TypeMeta) :
    (ExtFields inst m).2 = none ↔
      ∃ spec meta names name group version scope kind singular plural,
        getField inst "spec" = some (Value.map spec) ∧
        getField inst "metadata" = some (Value.map meta) ∧
        getField spec "names" = some (Value.map names) ∧
        getField meta "name" = some (Value.str name) ∧
        getField spec "group" = some (Value.str group) ∧
        getField spec "version" = some (Value.str version) ∧
        getField spec "scope" = some (Value.str scope) ∧
        getField names "kind" = some (Value.str kind) ∧
        getField names "singular" = some (Value.str singular) ∧
        getField names "plural" = some (Value.str plural) := by
  constructor
  · intro h
    unfold ExtFields at h
    repeat' split at h
    all_goals first
      | (simp at h; done)
      | (simp only [asMap_eq_some, mapStr_eq_ok] at *
         exact ⟨_, _, _, _, _, _, _, _, _, _, ‹_›, ‹_›, ‹_›, ‹_›, ‹_›, ‹_›, ‹_›, ‹_›, ‹_›, ‹_›⟩)
  · rintro ⟨spec, meta, names, name, group, version, scope, kind, singular, plural,
      h1, h2, h3, h4, h5, h6, h7, h8, h9, h10⟩
    have e1 := (asMap_eq_some inst "spec" spec).mpr h1
    have e2 := (asMap_eq_some inst "metadata" meta).mpr h2
    have e3 := (asMap_eq_some spec "names" names).mpr h3
    have e4 := (mapStr_eq_ok meta "name" name).mpr h4
    have e5 := (mapStr_eq_ok spec "group" group).mpr h5
    have e6 := (mapStr_eq_ok spec "version" version).mpr h6
    have e7 := (mapStr_eq_ok spec "scope" scope).mpr h7
    have e8 := (mapStr_eq_ok names "kind" kind).mpr h8
    have e9 := (mapStr_eq_ok names "singular" singular).mpr h9
    have e10 := (mapStr_eq_ok names "plural" plural).mpr h10
    simp only [ExtFields, e1, e2, e3, e4, e5, e6, e7, e8, e9, e10]
    split <;> rfl

end K9s

namespace K9s

theorem ExtFields_error_named (inst : Obj) (m : TypeMeta) (e : String)
    (h : (ExtFields inst m).2 = some e) :
    e = "Unable to locate `spec field on CRD" ∨
    e = "Unable to locate CRD `metadata field" ∨
    (∃ g v, e = "Unable to locate `names on CRD " ++ g ++ ":" ++ v) ∨
    ∃ spec meta, getField inst "spec" = some (Value.map spec) ∧
      getField inst "metadata" = some (Value.map meta) ∧
      (mapStr meta "name" = Except.error e ∨ mapStr spec "group" = Except.error e ∨
        mapStr spec "version" = Except.error e ∨ mapStr spec "scope" = Except.error e ∨
        ∃ names, getField spec "names" = some (Value.map names) ∧
          (mapStr names "kind" = Except.error e ∨ mapStr names "singular" = Except.error e ∨
            mapStr names "plural" = Except.error e)) := by
  unfold ExtFields at h
  repeat' split at h
  all_goals simp only [Option.some.injEq, reduceCtorEq] at h
  all_goals subst h
  all_goals simp only [asMap_eq_some] at *
  all_goals first
    | exact Or.inr (Or.inr (Or.inl ⟨_, _, rfl⟩))
    | simp_all

end K9s

namespace K9s

theorem ExtFields_values (inst : Obj) (m : TypeMeta)
    (spec meta names : Obj) (name group version scope kind singular plural : String)
    (h1 : getField inst "spec" = some (Value.map spec))
    (h2 : getField inst "metadata" = some (Value.map meta))
    (h3 : getField spec "names" = some (Value.map names))
    (h4 : getField meta "name" = some (Value.str name))
    (h5 : getField spec "group" = some (Value.str group))
    (h6 : getField spec "version" = some (Value.str version))
    (h7 : getField spec "scope" = some (Value.str scope))
    (h8 : getField names "kind" = some (Value.str kind))
    (h9 : getField names "singular" = some (Value.str singular))
    (h10 : getField names "plural" = some (Value.str plural)) :
    (ExtFields inst m).1.Name = name ∧ (ExtFields inst m).1.Group = group ∧
    (ExtFields inst m).1.Version = version ∧ (ExtFields inst m).1.Kind = kind ∧
    (ExtFields inst m).1.Singular = singular ∧ (ExtFields inst m).1.Plural = plural ∧
    (ExtFields inst m).1.Namespaced = decide (scope = "Namespaced") := by
  have e1 := (asMap_eq_some inst "spec" spec).mpr h1
  have e2 := (asMap_eq_some inst "metadata" meta).mpr h2
  have e3 := (asMap_eq_some spec "names" names).mpr h3
  have e4 := (mapStr_eq_ok meta "name" name).mpr h4
  have e5 := (mapStr_eq_ok spec "group" group).mpr h5
  have e6 := (mapStr_eq_ok spec "version" version).mpr h6
  have e7 := (mapStr_eq_ok spec "scope" scope).mpr h7
  have e8 := (mapStr_eq_ok names "kind" kind).mpr h8
  have e9 := (mapStr_eq_ok names "singular" singular).mpr h9
  have e10 := (mapStr_eq_ok names "plural" plural).mpr h10
  simp only [ExtFields, e1, e2, e3, e4, e5, e6, e7, e8, e9, e10, isNamespaced]
  split <;> exact ⟨rfl, rfl, rfl, rfl, rfl, rfl, rfl⟩

theorem asMap_eq_none (m : Obj) (s : String) :
    asMap m s = none ↔ ∀ x, getField m s ≠ some (Value.map x) := by
  constructor
  · intro h x hx
    rw [(asMap_eq_some m s x).mpr hx] at h
    exact Option.noConfusion h
  · intro h
    cases ha : asMap m s with
    | none => rfl
    | some x => exact absurd ((asMap_eq_some m s x).mp ha) (h x)

/-- The error `ExtFields` returns is that of the first check that fails, in the order of
the code: `spec`, `metadata`, `name`, `group`, `version`, `scope`, `names`, `kind`,
`singular`, `plural`. -/
theorem ExtFields_first_failure (inst : Obj) (m : TypeMeta) :
    ((∀ x, getField inst "spec" ≠ some (Value.map x)) →
      (ExtFields inst m).2 = some "Unable to locate `spec field on CRD") ∧
    (∀ spec, getField inst "spec" = some (Value.map spec) →
      ((∀ x, getField inst "metadata" ≠ some (Value.map x)) →
        (ExtFields inst m).2 = some "Unable to locate CRD `metadata field") ∧
      (∀ meta, getField inst "metadata" = some (Value.map meta) →
        (∀ e, mapStr meta "name" = Except.error e → (ExtFields inst m).2 = some e) ∧
        (∀ name, getField meta "name" = some (Value.str name) →
          (∀ e, mapStr spec "group" = Except.error e → (ExtFields inst m).2 = some e) ∧
          (∀ group, getField spec "group" = some (Value.str group) →
            (∀ e, mapStr spec "version" = Except.error e → (ExtFields inst m).2 = some e) ∧
            (∀ version, getField spec "version" = some (Value.str version) →
              (∀ e, mapStr spec "scope" = Except.error e → (ExtFields inst m).2 = some e) ∧
              (∀ scope, getField spec "scope" = some (Value.str scope) →
                ((∀ x, getField spec "names" ≠ some (Value.map x)) →
                  (ExtFields inst m).2 =
                    some ("Unable to locate `names on CRD " ++ group ++ ":" ++ version)) ∧
                (∀ names, getField spec "names" = some (Value.map names) →
                  (∀ e, mapStr names "kind" = Except.error e →
                    (ExtFields inst m).2 = some e) ∧
                  (∀ kind, getField names "kind" = some (Value.str kind) →
                    (∀ e, mapStr names "singular" = Except.error e →
                      (ExtFields inst m).2 = some e) ∧
                    (∀ singular, getField names "singular" = some (Value.str singular) →
                      ∀ e, mapStr names "plural" = Except.error e →
                        (ExtFields inst m).2 = some e))))))))) := by
  refine ⟨fun h => ?_, fun spec h1 => ⟨fun h => ?_, fun meta h2 => ⟨fun e h => ?_,
    fun name h4 => ⟨fun e h => ?_, fun group h5 => ⟨fun e h => ?_,
    fun version h6 => ⟨fun e h => ?_, fun scope h7 => ⟨fun h => ?_,
    fun names h3 => ⟨fun e h => ?_, fun kind h8 => ⟨fun e h => ?_,
    fun singular h9 e h => ?_⟩⟩⟩⟩⟩⟩⟩⟩⟩
  · simp only [ExtFields, (asMap_eq_none inst "spec").mpr h]
  all_goals have e1 := (asMap_eq_some inst "spec" spec).mpr h1
  · simp only [ExtFields, e1, (asMap_eq_none inst "metadata").mpr h]
  all_goals have e2 := (asMap_eq_some inst "metadata" meta).mpr h2
  · simp only [ExtFields, e1, e2, h]
  all_goals have e4 := (mapStr_eq_ok meta "name" name).mpr h4
  · simp only [ExtFields, e1, e2, e4, h]
  all_goals have e5 := (mapStr_eq_ok spec "group" group).mpr h5
  · simp only [ExtFields, e1, e2, e4, e5, h]
  all_goals have e6 := (mapStr_eq_ok spec "version" version).mpr h6
  · simp only [ExtFields, e1, e2, e4, e5, e6, h]
  all_goals have e7 := (mapStr_eq_ok spec "scope" scope).mpr h7
  · simp only [ExtFields, e1, e2, e4, e5, e6, e7, (asMap_eq_none spec "names").mpr h]
  all_goals have e3 := (asMap_eq_some spec "names" names).mpr h3
  · simp only [ExtFields, e1, e2, e4, e5, e6, e7, e3, h]
  all_goals have e8 := (mapStr_eq_ok names "kind" kind).mpr h8
  · simp only [ExtFields, e1, e2, e4, e5, e6, e7, e3, e8, h]
  · have e9 := (mapStr_eq_ok names "singular" singular).mpr h9
    simp only [ExtFields, e1, e2, e4, e5, e6, e7, e3, e8, e9, h]

/-- C15: `ExtFields` always returns, every type assertion in it being checked.  It
returns a nil error exactly when `spec`, `metadata` and `spec.names` are maps and
`metadata.name`, `spec.group`, `spec.version`, `spec.scope`, `names.kind`,
`names.singular` and `names.plural` are strings; then the `TypeMeta` fields hold these
strings and `Namespaced` is true exactly when the scope is `Namespaced`.  An error is one
of the three messages for a map that cannot be located or the error of `mapStr` for one
of the seven string fields.  The error returned is that of the first check that fails, in
the order `spec`, `metadata`, `name`, `group`, `version`, `scope`, `names`, `kind`,
`singular`, `plural`: the message of `spec`, of `metadata` or of `names` when that entry is
missing or not a map, and, for a string field `f`, the error of `mapStr`, which names the
field: `Unable to locate CRD field f` when `f` is missing, `No string type for CRD field f`
when it is not a string. -/
theorem ExtFields_reports (inst : Obj) (m : TypeMeta) :
    ((ExtFields inst m).2 = none ↔
      ∃ spec meta names name group version scope kind singular plural,
        getField inst "spec" = some (Value.map spec) ∧
        getField inst "metadata" = some (Value.map meta) ∧
        getField spec "names" = some (Value.map names) ∧
        getField meta "name" = some (Value.str name) ∧
        getField spec "group" = some (Value.str group) ∧
        getField spec "version" = some (Value.str version) ∧
        getField spec "scope" = some (Value.str scope) ∧
        getField names "kind" = some (Value.str kind) ∧
        getField names "singular" = some (Value.str singular) ∧
        getField names "plural" = some (Value.str plural)) ∧
    (∀ spec meta names name group version scope kind singular plural,
      getField inst "spec" = some (Value.map spec) →
      getField inst "metadata" = some (Value.map meta) →
      getField spec "names" = some (Value.map names) →
      getField meta "name" = some (Value.str name) →
      getField spec "group" = some (Value.str group) →
      getField spec "version" = some (Value.str version) →
      getField spec "scope" = some (Value.str scope) →
      getField names "kind" = some (Value.str kind) →
      getField names "singular" = some (Value.str singular) →
      getField names "plural" = some (Value.str plural) →
      (ExtFields inst m).1.Name = name ∧ (ExtFields inst m).1.Group = group ∧
      (ExtFields inst m).1.Version = version ∧ (ExtFields inst m).1.Kind = kind ∧
      (ExtFields inst m).1.Singular = singular ∧ (ExtFields inst m).1.Plural = plural ∧
      (ExtFields inst m).1.Namespaced = decide (scope = "Namespaced")) ∧
    (∀ e, (ExtFields inst m).2 = some e →
      e = "Unable to locate `spec field on CRD" ∨
      e = "Unable to locate CRD `metadata field" ∨
      (∃ g v, e = "Unable to locate `names on CRD " ++ g ++ ":" ++ v) ∨
      ∃ spec meta, getField inst "spec" = some (Value.map spec) ∧
        getField inst "metadata" = some (Value.map meta) ∧
        (mapStr meta "name" = Except.error e ∨ mapStr spec "group" = Except.error e ∨
          mapStr spec "version" = Except.error e ∨ mapStr spec "scope" = Except.error e ∨
          ∃ names, getField spec "names" = some (Value.map names) ∧
            (mapStr names "kind" = Except.error e ∨ mapStr names "singular" = Except.error e ∨
              mapStr names "plural" = Except.error e))) ∧
    (((∀ x, getField inst "spec" ≠ some (Value.map x)) →
      (ExtFields inst m).2 = some "Unable to locate `spec field on CRD") ∧
    (∀ spec, getField inst "spec" = some (Value.map spec) →
      ((∀ x, getField inst "metadata" ≠ some (Value.map x)) →
        (ExtFields inst m).2 = some "Unable to locate CRD `metadata field") ∧
      (∀ meta, getField inst "metadata" = some (Value.map meta) →
        (∀ e, mapStr meta "name" = Except.error e → (ExtFields inst m).2 = some e) ∧
        (∀ name, getField meta "name" = some (Value.str name) →
          (∀ e, mapStr spec "group" = Except.error e → (ExtFields inst m).2 = some e) ∧
          (∀ group, getField spec "group" = some (Value.str group) →
            (∀ e, mapStr spec "version" = Except.error e → (ExtFields inst m).2 = some e) ∧
            (∀ version, getField spec "version" = some (Value.str version) →
              (∀ e, mapStr spec "scope" = Except.error e → (ExtFields inst m).2 = some e) ∧
              (∀ scope, getField spec "scope" = some (Value.str scope) →
                ((∀ x, getField spec "names" ≠ some (Value.map x)) →
                  (ExtFields inst m).2 =
                    some ("Unable to locate `names on CRD " ++ group ++ ":" ++ version)) ∧
                (∀ names, getField spec "names" = some (Value.map names) →
                  (∀ e, mapStr names "kind" = Except.error e →
                    (ExtFields inst m).2 = some e) ∧
                  (∀ kind, getField names "kind" = some (Value.str kind) →
                    (∀ e, mapStr names "singular" = Except.error e →
                      (ExtFields inst m).2 = some e) ∧
                    (∀ singular, getField names "singular" = some (Value.str singular) →
                      ∀ e, mapStr names "plural" = Except.error e →
                        (ExtFields inst m).2 = some e)))))))))) ∧
    (∀ (mp : Obj) (f : String),
      (getField mp f = none → mapStr mp f = Except.error ("Unable to locate CRD field " ++ f)) ∧
      (∀ x, getField mp f = some x → (∀ v, x ≠ Value.str v) →
        mapStr mp f = Except.error ("No string type for CRD field " ++ f)) ∧
      (∀ v, getField mp f = some (Value.str v) → mapStr mp f = Except.ok v)) :=
  ⟨ExtFields_nil_iff inst m,
    fun spec meta names name group version scope kind singular plural
        h1 h2 h3 h4 h5 h6 h7 h8 h9 h10 =>
      ExtFields_values inst m spec meta names name group version scope kind singular plural
        h1 h2 h3 h4 h5 h6 h7 h8 h9 h10,
    fun e h => ExtFields_error_named inst m e h,
    ExtFields_first_failure inst m,
    fun mp f => mapStr_cases mp f⟩

/-- Witness of C15: a well-formed definition of the kind `Foo`, and one whose only defect
is a `spec.group` that is not a string; the error names `group`. -/
theorem ExtFields_reports_witness :
    (ExtFields
      [("metadata", Value.map [("name", Value.str "foos.example.com")]),
        ("spec", Value.map [("group", Value.str "example.com"), ("version", Value.str "v1"),
          ("scope", Value.str "Namespaced"),
          ("names", Value.map [("kind", Value.str "Foo"), ("singular", Value.str "foo"),
            ("plural", Value.str "foos")])])]
      ⟨"", "", "", "", "", "", false, []⟩).2 = none ∧
    (ExtFields
      [("metadata", Value.map [("name", Value.str "foos.example.com")]),
        ("spec", Value.map [("group", Value.other)])]
      ⟨"", "", "", "", "", "", false, []⟩).2 = some "No string type for CRD field group" := by
  refine ⟨?_, ?_⟩
  rotate_left
  · exact ((((ExtFields_reports
      [("metadata", Value.map [("name", Value.str "foos.example.com")]),
        ("spec", Value.map [("group", Value.other)])]
      ⟨"", "", "", "", "", "", false, []⟩).2.2.2.1.2
        [("group", Value.other)] rfl).2
        [("name", Value.str "foos.example.com")] rfl).2 "foos.example.com" rfl).1
        "No string type for CRD field group" rfl
  exact (ExtFields_reports _ ⟨"", "", "", "", "", "", false, []⟩).1.mpr
    ⟨[("group", Value.str "example.com"), ("version", Value.str "v1"),
        ("scope", Value.str "Namespaced"),
        ("names", Value.map [("kind", Value.str "Foo"), ("singular", Value.str "foo"),
          ("plural", Value.str "foos")])],
      [("name", Value.str "foos.example.com")],
      [("kind", Value.str "Foo"), ("singular", Value.str "foo"), ("plural", Value.str "foos")],
      "foos.example.com", "example.com", "v1", "Namespaced", "Foo", "foo", "foos",
      rfl, rfl, rfl, rfl, rfl, rfl, rfl, rfl, rfl, rfl⟩

end K9s

/-! ## `CustomResourceDefinition.New` and `CustomResourceDefinition.Fields` -/

namespace K9s

/-- `New` completes only on an object whose `metadata` is a map with a string `name`. -/
theorem CustomResourceDefinition.New_eq_some (inst : Obj) (path : String) :
    CustomResourceDefinition.New inst = some path ↔
      ∃ meta, getField inst "metadata" = some (Value.map meta) ∧
        getField meta "name" = some (Value.str path) := by
  unfold CustomResourceDefinition.New mustMap
  constructor
  · intro h
    split at h
    · simp at h
    · rename_i meta hm
      refine ⟨meta, (asMap_eq_some _ _ _).mp hm, ?_⟩
      unfold mustStr at h
      split at h <;> simp_all
  · rintro ⟨meta, h1, h2⟩
    simp [(asMap_eq_some _ _ _).mpr h1, mustStr, h2]

/-- C16, the code on malformed objects: `New` and `Fields` assert the types of `metadata`,
`name` and `creationTimestamp` without a check, so both panic on an object without
`metadata`, on one whose `metadata` is not a map, and on one whose `name` is missing or
not a string; `Fields` panics as well when `creationTimestamp` is missing.  On a
well-formed object both complete. -/
theorem crd_New_Fields_panic :
    CustomResourceDefinition.New [] = none ∧
    CustomResourceDefinition.New [("metadata", Value.str "x")] = none ∧
    CustomResourceDefinition.New [("metadata", Value.map [])] = none ∧
    CustomResourceDefinition.New [("metadata", Value.map [("name", Value.null)])] = none ∧
    CustomResourceDefinition.Fields (fun _ => "1d") [] = none ∧
    CustomResourceDefinition.Fields (fun _ => "1d")
      [("metadata", Value.map [("name", Value.str "foos.example.com")])] = none ∧
    CustomResourceDefinition.Fields (fun _ => "1d")
      [("metadata", Value.map [("creationTimestamp", Value.str "2019-01-01T00:00:00Z")])]
      = none ∧
    CustomResourceDefinition.New
      [("metadata", Value.map [("name", Value.str "foos.example.com"),
        ("creationTimestamp", Value.str "2019-01-01T00:00:00Z")])]
      = some "foos.example.com" ∧
    CustomResourceDefinition.Fields (fun _ => "1d")
      [("metadata", Value.map [("name", Value.str "foos.example.com"),
        ("creationTimestamp", Value.str "2019-01-01T00:00:00Z")])]
      = some ["foos.example.com", "1d"] := by
  decide

end K9s

/-! ## `Logs.stop` -/

namespace K9s

theorem Logs.stop_of_stopped (l : Logs) (h : l.cancelFunc = none) : l.stop = l := by
  simp [Logs.stop, h]

theorem Logs.stop_cancelFunc (l : Logs) : l.stop.cancelFunc = none := by
  unfold Logs.stop
  split
  · assumption
  · rfl

theorem Logs.stops_of_stopped (n : Nat) :
    ∀ l : Logs, l.cancelFunc = none → Logs.stops n l = l := by
  induction n with
  | zero => intro l _; rfl
  | succ n ih =>
    intro l h
    rw [Logs.stops, Logs.stop_of_stopped l h]
    exact ih l h

/-- C17: `stop` on a session whose cancel function is set invokes it once and clears it;
`stop` on a stopped session invokes nothing and changes nothing; hence two stops are one
stop, any positive number of consecutive stops is one stop, and consecutive stops invoke
at most one cancel function. -/
theorem Logs.stop_idempotent (l : Logs) :
    (∀ f, l.cancelFunc = some f →
      l.stop = { cancelFunc := none, invoked := l.invoked ++ [f] }) ∧
    (l.cancelFunc = none → l.stop = l) ∧
    l.stop.stop = l.stop ∧
    (∀ n, Logs.stops (n + 1) l = l.stop) ∧
    (∀ n, (Logs.stops n l).invoked.length ≤ l.invoked.length + 1) := by
  have h3 : ∀ n, Logs.stops (n + 1) l = l.stop := fun n => by
    rw [Logs.stops]
    exact Logs.stops_of_stopped n l.stop (Logs.stop_cancelFunc l)
  have hlen : l.stop.invoked.length ≤ l.invoked.length + 1 := by
    unfold Logs.stop
    split <;> simp
  refine ⟨?_, Logs.stop_of_stopped l, Logs.stop_of_stopped _ (Logs.stop_cancelFunc l), h3, ?_⟩
  · intro f hf
    simp [Logs.stop, hf]
  · intro n
    cases n with
    | zero => simp [Logs.stops]
    | succ n => rw [h3 n]; exact hlen

/-- Witness of C17: a running session with cancel function 7 is stopped three times. -/
theorem Logs.stop_idempotent_witness :
    Logs.stop ⟨some 7, []⟩ = ⟨none, [7]⟩ ∧ Logs.stops 3 ⟨some 7, []⟩ = ⟨none, [7]⟩ := by
  have h := Logs.stop_idempotent ⟨some 7, []⟩
  refine ⟨h.1 7 rfl, ?_⟩
  rw [h.2.2.2.1 2]
  exact h.1 7 rfl

end K9s

/-! ## `updateLogs`: the cursor stays in range -/

namespace K9s

theorem LogLoop.step_bounds (buffSize : Nat) (hb : 1 ≤ buffSize) (s : LogLoop) (e : LogEvent)
    (hlen : s.buff.length = buffSize) (hidx : s.index ≤ buffSize)
    (hfl : ∀ f ∈ s.flushes, f.lineCount ≤ buffSize ∧ f.buff.length = buffSize) :
    ∃ s', s.step buffSize e = some s' ∧ s'.buff.length = buffSize ∧ s'.index ≤ buffSize ∧
      (∀ f ∈ s'.flushes, f.lineCount ≤ buffSize ∧ f.buff.length = buffSize) := by
  have hfl' : ∀ f ∈ s.flushes ++ [⟨s.index, s.buff⟩],
      f.lineCount ≤ buffSize ∧ f.buff.length = buffSize := by
    intro f hf
    simp only [List.mem_append, List.mem_singleton] at hf
    rcases hf with hf | hf
    · exact hfl f hf
    · subst hf
      exact ⟨hidx, hlen⟩
  cases e with
  | line l =>
    by_cases hi : s.index < buffSize
    · have hst : store s.buff s.index l = some (s.buff.set s.index l) := by
        simp [store, hlen, hi]
      exact ⟨⟨s.buff.set s.index l, s.index + 1, s.flushes, s.running⟩,
        by simp [LogLoop.step, hi, hst], by simpa using hlen, hi, hfl⟩
    · have h0 : 0 < s.buff.length := by omega
      have hst : store s.buff 0 l = some (s.buff.set 0 l) := by simp [store, h0]
      exact ⟨⟨s.buff.set 0 l, 0 + 1, s.flushes ++ [⟨s.index, s.buff⟩], s.running⟩,
        by simp [LogLoop.step, hi, hst], by simpa using hlen, by simpa using hb, hfl'⟩
  | closed => exact ⟨_, rfl, hlen, hidx, hfl'⟩
  | timer => exact ⟨_, rfl, hlen, Nat.zero_le _, hfl'⟩
  | cancel => exact ⟨_, rfl, hlen, hidx, hfl⟩

theorem LogLoop.run_bounds (buffSize : Nat) (hb : 1 ≤ buffSize) (es : List LogEvent) :
    ∀ s : LogLoop, s.buff.length = buffSize → s.index ≤ buffSize →
      (∀ f ∈ s.flushes, f.lineCount ≤ buffSize ∧ f.buff.length = buffSize) →
      ∃ s', s.run buffSize es = some s' ∧ s'.buff.length = buffSize ∧ s'.index ≤ buffSize ∧
        (∀ f ∈ s'.flushes, f.lineCount ≤ buffSize ∧ f.buff.length = buffSize) := by
  induction es with
  | nil => intro s hlen hidx hfl; exact ⟨s, rfl, hlen, hidx, hfl⟩
  | cons e es ih =>
    intro s hlen hidx hfl
    by_cases hr : s.running = true
    · obtain ⟨s1, h1, hlen1, hidx1, hfl1⟩ := LogLoop.step_bounds buffSize hb s e hlen hidx hfl
      obtain ⟨s2, h2, hlen2, hidx2, hfl2⟩ := ih s1 hlen1 hidx1 hfl1
      exact ⟨s2, by simp [LogLoop.run, hr, h1, h2], hlen2, hidx2, hfl2⟩
    · exact ⟨s, by simp [LogLoop.run, hr], hlen, hidx, hfl⟩

/-- C18: for every capacity `buffSize ≥ 1` and every sequence of line, timer, close and
cancel events, `updateLogs` handles the sequence without an index out of range; the cursor
is at most `buffSize` afterwards, hence before and after each event; every flush issued
has `lineCount ≤ buffSize` and a buffer of `buffSize` entries; and the next line, if any,
is written at an index strictly below `buffSize`. -/
theorem updateLogs_index_safe (buffSize : Nat) (hb : 1 ≤ buffSize) (events : List LogEvent) :
    ∃ s, updateLogs buffSize events = some s ∧ s.buff.length = buffSize ∧
      0 ≤ s.index ∧ s.index ≤ buffSize ∧
      (∀ f ∈ s.flushes, 0 ≤ f.lineCount ∧ f.lineCount ≤ buffSize ∧ f.buff.length = buffSize) ∧
      (∀ e, ∃ s', s.step buffSize e = some s' ∧ s'.index ≤ buffSize) ∧
      (∀ l, ∃ i, i < buffSize ∧ store s.buff i l = some (s.buff.set i l) ∧
        (s.step buffSize (LogEvent.line l)).map (fun s' => s'.buff) = some (s.buff.set i l)) := by
  obtain ⟨s, hs, hlen, hidx, hfl⟩ :=
    LogLoop.run_bounds buffSize hb events (LogLoop.init buffSize)
      (by simp [LogLoop.init]) (Nat.zero_le _) (by simp [LogLoop.init])
  refine ⟨s, hs, hlen, Nat.zero_le _, hidx,
    fun f hf => ⟨Nat.zero_le _, (hfl f hf).1, (hfl f hf).2⟩, ?_, ?_⟩
  · intro e
    obtain ⟨s', h1, _, h3, _⟩ := LogLoop.step_bounds buffSize hb s e hlen hidx hfl
    exact ⟨s', h1, h3⟩
  · intro l
    by_cases hi : s.index < buffSize
    · have hst : store s.buff s.index l = some (s.buff.set s.index l) := by
        simp [store, hlen, hi]
      exact ⟨s.index, hi, hst, by simp [LogLoop.step, hi, hst]⟩
    · have h0 : 0 < s.buff.length := by omega
      have hst : store s.buff 0 l = some (s.buff.set 0 l) := by simp [store, h0]
      exact ⟨0, by omega, hst, by simp [LogLoop.step, hi, hst]⟩

/-- Witness of C18: capacity 2, with lines after a timer fire and a cancel at the end. -/
theorem updateLogs_index_safe_witness :
    ∃ s, updateLogs 2 [LogEvent.line "a", LogEvent.line "b", LogEvent.line "c",
        LogEvent.timer, LogEvent.line "d", LogEvent.cancel, LogEvent.line "e"] = some s ∧
      s.index ≤ 2 := by
  obtain ⟨s, h1, _, _, h2, _⟩ := updateLogs_index_safe 2 (by decide)
    [LogEvent.line "a", LogEvent.line "b", LogEvent.line "c",
      LogEvent.timer, LogEvent.line "d", LogEvent.cancel, LogEvent.line "e"]
  exact ⟨s, h1, h2⟩

end K9s

/-! ## `tableView.resetCmd` -/

namespace K9s

/-- With a label selector in the filter buffer and no `filterFn`, `resetCmd` calls the nil
function. -/
theorem TableViewKeys.resetCmd_nil_call (env : TableEnv) (w : TableViewKeys)
    (hsel : env.isLabelSelector w.view.cmdBuff.string = true) (hnil : w.filterFnSet = false) :
    w.resetCmd env = none := by
  unfold TableViewKeys.resetCmd
  by_cases he : w.view.cmdBuff.empty = true
  · simp [he, hsel, TableViewKeys.callFilterFn, hnil]
  · simp [he, hsel, TableViewKeys.callFilterFn, hnil]

/-- C19, the code at the failing state: filter mode is active, the buffer holds the label
selector `-l app=x` and `filterFn` is nil.  `filterCmd` falls through its guard, refreshes
and leaves the selector in the buffer; `resetCmd` then calls the nil `filterFn` and panics.
With `filterFn` set, `resetCmd` calls it with the empty string and resets the buffer. -/
theorem resetCmd_calls_nil_filterFn :
    (TableViewKeys.filterCmd
        ⟨String, fun s => some s, fun rx s => decide (rx = "(?i)" ++ s),
          fun s => decide (s = "-l app=x")⟩ (fun _ => "app=x")
        ⟨⟨emptyTableData, "", ⟨"-l app=x", true⟩, ⟨0, 0, true⟩, []⟩, false, [], []⟩)
      = some ⟨⟨emptyTableData, "", ⟨"-l app=x", false⟩, ⟨0, 0, true⟩, []⟩, false, [], []⟩ ∧
    (TableViewKeys.resetCmd
        ⟨String, fun s => some s, fun rx s => decide (rx = "(?i)" ++ s),
          fun s => decide (s = "-l app=x")⟩
        ⟨⟨emptyTableData, "", ⟨"-l app=x", false⟩, ⟨0, 0, true⟩, []⟩, false, [], []⟩)
      = none ∧
    (TableViewKeys.resetCmd
        ⟨String, fun s => some s, fun rx s => decide (rx = "(?i)" ++ s),
          fun s => decide (s = "-l app=x")⟩
        ⟨⟨emptyTableData, "", ⟨"-l app=x", false⟩, ⟨0, 0, true⟩, []⟩, true, [], []⟩)
      = some ⟨⟨emptyTableData, "", ⟨"", false⟩, ⟨0, 0, true⟩, []⟩, true, [""],
          ["Clearing filter..."]⟩ := by
  decide

end K9s
